import Mathlib

/-!
# The `ldb` line debugger (`src/ldb/src/ldb.c`): a shallow embedding

The C functions of `ldb.c` are embedded as Lean functions over an explicit
model of the Lua VM state they drive through the Lua C API.  Every definition
that embeds a C function carries the name of that function.

Conventions
* a C `char` is a `Char`; a C string or a Lua string is a `List Char`
  (a Lua string may hold NUL bytes, a C string ends at its first NUL);
* the text written through `ldb_output` is accumulated in the field `out`;
* loops and recursive calls whose termination is not evident take a fuel
  argument and answer `none` when it runs out.
-/

namespace Ldb

set_option maxRecDepth 100000

/-! ## Text and C strings -/

/-- Text written to the output sink. -/
abbrev Text := List Char

/-- The NUL byte. -/
def NUL : Char := Char.ofNat 0

/-- The C string stored in a byte sequence: the bytes before the first NUL. -/
def cstr (bytes : List Char) : List Char :=
  bytes.takeWhile (fun c => c ≠ NUL)

/-- The C library function `strcspn(s, reject)` on the bytes `s` that start at
the pointer (an empty list stands for the terminating NUL): the length of the
longest prefix of the C string holding no character of `reject`. -/
def strcspn (s reject : List Char) : Nat :=
  match s with
  | [] => 0
  | c :: rest => if c = NUL ∨ c ∈ reject then 0 else strcspn rest reject + 1

/-- The array `spchar` of `print_string_var` (`"\"\t\n\r"`). -/
def spchar : List Char := ['"', '\t', '\n', '\r']

/-- The `for` loop of `print_string_var` (ldb.c:387-412): `val` and `vallen`
are the string and its length, `i` the loop index, `out` the text emitted so
far.  Each iteration advances `i`, so `vallen` units of fuel always suffice. -/
def print_string_loop (val : List Char) (vallen : Nat) : Nat → Nat → Text → Text
  | 0, _, out => out
  | fuel + 1, i, out =>
    if i < vallen then
      let c := val.getD i NUL
      if c = NUL then
        print_string_loop val vallen fuel (i + 1) (out ++ ['\\', '0', '0', '0'])
      else if c = '"' then
        print_string_loop val vallen fuel (i + 1) (out ++ ['\\', '"'])
      else if c = '\\' then
        print_string_loop val vallen fuel (i + 1) (out ++ ['\\', '\\'])
      else if c = '\t' then
        print_string_loop val vallen fuel (i + 1) (out ++ ['\\', 't'])
      else if c = '\n' then
        print_string_loop val vallen fuel (i + 1) (out ++ ['\\', 'n'])
      else if c = '\r' then
        print_string_loop val vallen fuel (i + 1) (out ++ ['\\', 'r'])
      else
        let splen := strcspn (val.drop i) spchar
        print_string_loop val vallen fuel (i + splen) (out ++ (val.drop i).take splen)
    else out

/-- The text `print_string_var` (ldb.c:379-414) emits for the Lua string
`val`: an opening quote, the loop, a closing quote. -/
def print_string_text (val : List Char) : Text :=
  print_string_loop val val.length val.length 0 ['"'] ++ ['"']

/-- The escape of one byte, as the specification lists it. -/
def escape_byte (c : Char) : Text :=
  if c = NUL then ['\\', '0', '0', '0']
  else if c = '"' then ['\\', '"']
  else if c = '\\' then ['\\', '\\']
  else if c = '\t' then ['\\', 't']
  else if c = '\n' then ['\\', 'n']
  else if c = '\r' then ['\\', 'r']
  else [c]

/-- The byte-by-byte escaper of the specification: a quote, the escape of
each byte in order, a quote. -/
def escape_bytewise (s : List Char) : Text :=
  ['"'] ++ (s.map escape_byte).flatten ++ ['"']

/-! ## The Lua VM seen through the C API

The Lua library is not part of the repository; its API functions are embedded
from the Lua 5.1 reference manual, restricted to what `ldb.c` calls. -/

/-- A Lua value.  Tables are references into the table store of the machine,
so a table can contain itself.  A number is identified by an integer code of
its `double` (floating point arithmetic is not modelled); pointers are
natural numbers, `0` being `NULL`. -/
inductive LuaValue where
  | nil
  | boolean (b : Bool)
  | lightuserdata (p : Nat)
  | number (n : Int)
  | string (s : List Char)
  | table (id : Nat)
  | lfunction (id : Nat)
  | cfunction (p : Nat)
  | userdata (p : Nat)
  | thread (id : Nat)
deriving DecidableEq

def LUA_TNONE : Int := -1
def LUA_TNIL : Int := 0
def LUA_TBOOLEAN : Int := 1
def LUA_TLIGHTUSERDATA : Int := 2
def LUA_TNUMBER : Int := 3
def LUA_TSTRING : Int := 4
def LUA_TTABLE : Int := 5
def LUA_TFUNCTION : Int := 6
def LUA_TUSERDATA : Int := 7
def LUA_TTHREAD : Int := 8

def LUA_MASKCALL : Nat := 1
def LUA_MASKRET : Nat := 2
def LUA_MASKLINE : Nat := 4
def LUA_MASKCOUNT : Nat := 8

/-- The hook functions a VM can carry: the debugger's `line_hook`, or a hook
installed by somebody else. -/
inductive lua_Hook where
  | line_hook
  | foreign (id : Nat)
deriving DecidableEq

/-- One activation record of the debugged program, as `lua_getstack`,
`lua_getinfo` and `lua_getlocal` expose it. -/
structure CallInfo where
  source : List Char
  currentline : Int
  name : Option (List Char)
  what : List Char
  locals : List (List Char × LuaValue)
deriving DecidableEq

/-- The `lua_Debug` record filled by `lua_getstack` / `lua_getinfo`. -/
structure lua_Debug where
  i_ci : Nat
  source : List Char
  currentline : Int
  name : Option (List Char)
  what : List Char
deriving DecidableEq

/-- The session object `ldb_t` (declared in `ldb.h`): whether the attached VM
is set (`state`), the `step` flag and `call_depth`.  The file cache lives in
`Machine.files`. -/
structure ldb_t where
  state : Option Nat
  step : Int
  call_depth : Int
deriving DecidableEq

/-- A cached source file (`ldb_file_t`, declared in `ldb_util.h`). -/
structure ldb_file_t where
  name : List Char
  lines : List (List Char)
  line : Int
deriving DecidableEq

/-- The process state `ldb.c` acts on: the Lua VM behind `lua_State *state`
(value stack with the TOP FIRST, table store, globals, registry, call stack,
hook), the `ldb_t` objects allocated so far (by address), the files
`ldb_file_load` can deliver, and the text written through `ldb_output`. -/
structure Machine where
  addr : Nat
  stack : List LuaValue
  heap : List (List (LuaValue × LuaValue))
  globals : List (List Char × LuaValue)
  registry : List (LuaValue × LuaValue)
  frames : List CallInfo
  hook : Option lua_Hook
  hookmask : Nat
  ldbs : List (Nat × ldb_t)
  files : List (List Char × ldb_file_t)
  out : Text
deriving DecidableEq

/-- The formatting done inside `ldb_output` (declared in `ldb_util.h`, a
`printf`-like function) for the conversions that depend on the C library:
`%f` of a number and `%p` of a pointer. -/
structure Printf where
  fmt_f : Int → Text
  fmt_p : Nat → Text

/-- The function `ldb_output` with its format already expanded: append to the sink. -/
def ldb_output (M : Machine) (text : Text) : Machine :=
  { M with out := M.out ++ text }

/-- The value at an acceptable stack index: `idx > 0` counts from the bottom
(1 is the bottom), `idx < 0` from the top (-1 is the top); `none` when no
value is there.  Pseudo-indices are not handled here: `ldb.c` uses
`LUA_REGISTRYINDEX` only in `lua_settable` / `lua_gettable`, embedded below as
`registry_set` / `registry_get`. -/
def index2adr (M : Machine) (idx : Int) : Option LuaValue :=
  if 0 < idx then
    if idx ≤ M.stack.length then M.stack.get? (M.stack.length - idx.toNat) else none
  else if idx < 0 then M.stack.get? ((-idx).toNat - 1)
  else none

def lua_type (M : Machine) (idx : Int) : Int :=
  match index2adr M idx with
  | none => LUA_TNONE
  | some .nil => LUA_TNIL
  | some (.boolean _) => LUA_TBOOLEAN
  | some (.lightuserdata _) => LUA_TLIGHTUSERDATA
  | some (.number _) => LUA_TNUMBER
  | some (.string _) => LUA_TSTRING
  | some (.table _) => LUA_TTABLE
  | some (.lfunction _) => LUA_TFUNCTION
  | some (.cfunction _) => LUA_TFUNCTION
  | some (.userdata _) => LUA_TUSERDATA
  | some (.thread _) => LUA_TTHREAD

def lua_gettop (M : Machine) : Int := M.stack.length

/-- The API function `lua_settop`: a non-negative index sets the height
(dropping from the top or filling with nil), a negative one is relative to
the top. -/
def lua_settop (M : Machine) (idx : Int) : Machine :=
  if 0 ≤ idx then
    if idx.toNat ≤ M.stack.length then
      { M with stack := M.stack.drop (M.stack.length - idx.toNat) }
    else
      { M with stack := List.replicate (idx.toNat - M.stack.length) LuaValue.nil ++ M.stack }
  else
    { M with stack := M.stack.drop ((-idx).toNat - 1) }

/-- The macro `lua_pop(L, n)`, which is `lua_settop(L, -(n)-1)`. -/
def lua_pop (M : Machine) (n : Int) : Machine := lua_settop M (-n - 1)

def lua_pushnil (M : Machine) : Machine := { M with stack := LuaValue.nil :: M.stack }

def lua_pushstring (M : Machine) (s : List Char) : Machine :=
  { M with stack := LuaValue.string s :: M.stack }

def lua_pushlightuserdata (M : Machine) (p : Nat) : Machine :=
  { M with stack := LuaValue.lightuserdata p :: M.stack }

/-- The number at an index (`0` when the value is no number). -/
def lua_tonumber (M : Machine) (idx : Int) : Int :=
  match index2adr M idx with
  | some (.number n) => n
  | _ => 0

/-- Every value but `false` and `nil` is true. -/
def lua_toboolean (M : Machine) (idx : Int) : Bool :=
  match index2adr M idx with
  | some (.boolean b) => b
  | some .nil => false
  | none => false
  | _ => true

/-- The C function pointer at an index, `0` (NULL) for anything else. -/
def lua_tocfunction (M : Machine) (idx : Int) : Nat :=
  match index2adr M idx with
  | some (.cfunction p) => p
  | _ => 0

/-- The block address of a full userdata or the pointer of a light one, else `0` (NULL). -/
def lua_touserdata (M : Machine) (idx : Int) : Nat :=
  match index2adr M idx with
  | some (.userdata p) => p
  | some (.lightuserdata p) => p
  | _ => 0

/-- The bytes of the string at an index (`ldb.c` asks only for values whose
type is `LUA_TSTRING`, so the in-place conversion of numbers never happens). -/
def lua_tostring (M : Machine) (idx : Int) : List Char :=
  match index2adr M idx with
  | some (.string s) => s
  | _ => []

def lua_strlen (M : Machine) (idx : Int) : Nat := (lua_tostring M idx).length

/-- The pairs of the table with reference `id` (no pairs for a dangling reference). -/
def table_pairs (heap : List (List (LuaValue × LuaValue))) (id : Nat) :
    List (LuaValue × LuaValue) :=
  heap.getD id []

/-- The successor of `key` in the traversal of a table given by its pairs in
traversal order: the first pair after nil, the pair behind the one whose key
is `key` otherwise; `none` at the end. -/
def table_next (t : List (LuaValue × LuaValue)) (key : LuaValue) : Option (LuaValue × LuaValue) :=
  if key = LuaValue.nil then t.head?
  else ((t.dropWhile (fun p => p.1 ≠ key)).drop 1).head?

/-- The API function `lua_next`: pops a key and pushes the next key and value
of the table at `idx` (returning true), or pushes nothing at the end of the
table (returning false).  A key the table does not hold raises a Lua error in
the library; here it ends the traversal. -/
def lua_next (M : Machine) (idx : Int) : Bool × Machine :=
  match M.stack with
  | [] => (false, M)
  | key :: rest =>
    match index2adr M idx with
    | some (.table id) =>
      match table_next (table_pairs M.heap id) key with
      | some (k, v) => (true, { M with stack := v :: k :: rest })
      | none => (false, { M with stack := rest })
    | _ => (false, { M with stack := rest })

/-! ## The value renderer (ldb.c:337-414, 458-499) -/

/-- The loops `for (i = 0; i < n; i++) ldb_output("\t")` of `print_table_var`. -/
def tabs (n : Int) : Text := List.replicate n.toNat '\t'

/-- The function `print_string_var` (ldb.c:379-414). -/
def print_string_var (M : Machine) (si : Int) (_depth : Int) : Machine :=
  let M1 := ldb_output M ['"']
  let val := lua_tostring M1 si
  let vallen := lua_strlen M1 si
  let M2 := { M1 with out := print_string_loop val vallen vallen 0 M1.out }
  ldb_output M2 ['"']

/-- The `while (lua_next(state, pos_si) != 0)` loop of `print_table_var`
(ldb.c:344-365).  `pv` is `print_var` (passed in, the two functions call each
other); the Boolean is the local `empty`; the natural number bounds the
number of `lua_next` calls. -/
def print_table_loop (pv : Machine → Int → Int → Option Machine) (pos_si depth : Int) :
    Nat → Machine → Bool → Option (Machine × Bool)
  | 0, _, _ => none
  | n + 1, M, empty =>
    match lua_next M pos_si with
    | (false, M1) => some (M1, empty)
    | (true, M1) =>
      let M2 := if empty then ldb_output M1 ['\n'] else M1
      let M3 := ldb_output M2 (tabs depth)
      let M4 := ldb_output M3 ['[']
      match pv M4 (-2) (-1) with
      | none => none
      | some M5 =>
        let M6 := ldb_output M5 [']', ' ', '=', ' ']
        match (if depth > 5 then some (ldb_output M6 ['{', '.', '.', '.', '}'])
               else pv M6 (-1) (depth + 1)) with
        | none => none
        | some M7 =>
          let M8 := lua_pop M7 1
          let M9 := ldb_output M8 [',', '\n']
          print_table_loop pv pos_si depth n M9 false

/-- The function `print_table_var` (ldb.c:337-377). -/
def print_table_var (pv : Machine → Int → Int → Option Machine) (n : Nat)
    (M : Machine) (si depth : Int) : Option Machine :=
  let pos_si := if si > 0 then si else si - 1
  let M1 := ldb_output M ['{']
  let top := lua_gettop M1
  let M2 := lua_pushnil M1
  match print_table_loop pv pos_si depth n M2 true with
  | none => none
  | some (M3, empty) =>
    let M4 := if empty then ldb_output M3 [' ', '}']
      else ldb_output (ldb_output M3 (tabs (depth - 1))) ['}']
    some (lua_settop M4 top)

/-- The function `print_var` (ldb.c:458-499).  The fuel bounds the nesting of
calls and, in each table, the number of `lua_next` calls; `none` means it ran out. -/
def print_var (pf : Printf) : Nat → Machine → Int → Int → Option Machine
  | 0, _, _, _ => none
  | fuel + 1, M, si, depth =>
    let t := lua_type M si
    if t = LUA_TNIL then some (ldb_output M ['(', 'n', 'i', 'l', ')'])
    else if t = LUA_TNUMBER then some (ldb_output M (pf.fmt_f (lua_tonumber M si)))
    else if t = LUA_TBOOLEAN then
      some (ldb_output M (if lua_toboolean M si then ['t', 'r', 'u', 'e'] else ['f', 'a', 'l', 's', 'e']))
    else if t = LUA_TFUNCTION then
      let func := lua_tocfunction M si
      if func ≠ 0 then some (ldb_output M ("(C function)0x".toList ++ pf.fmt_p func))
      else some (ldb_output M "(function)".toList)
    else if t = LUA_TUSERDATA then
      some (ldb_output M ("(user data)0x".toList ++ pf.fmt_p (lua_touserdata M si)))
    else if t = LUA_TSTRING then some (print_string_var M si depth)
    else if t = LUA_TTABLE then print_table_var (print_var pf fuel) (fuel + 1) M si depth
    else some M

/-- A sample of the C library formatting, for evaluating the renderer on
concrete inputs: both conversions print the decimal digits of their argument. -/
def sample_printf : Printf :=
  { fmt_f := fun n => (toString n).toList, fmt_p := fun p => (toString p).toList }

/-- An empty machine. -/
def Machine.init : Machine :=
  { addr := 1, stack := [], heap := [], globals := [], registry := [], frames := [],
    hook := none, hookmask := 0, ldbs := [], files := [], out := [] }

/-! ## Variable lookup and the `p` command (ldb.c:286-335) -/

def LDB_MAX_INPUT : Nat := 200
def LDB_MAX_PARAM : Nat := 5

/-- The record `input_t`: `char buffer[LDB_MAX_INPUT][LDB_MAX_PARAM]` as its
bytes in memory order (row `i`, which `input->buffer[i]` names, starts at
byte `LDB_MAX_PARAM * i`), and `num`. -/
structure input_t where
  buffer : List Char
  num : Int
deriving DecidableEq

/-- The C string that starts at `input->buffer[i]`. -/
def input_token (input : input_t) (i : Nat) : List Char :=
  cstr (input.buffer.drop (LDB_MAX_PARAM * i))

/-- The result of `strcmp(a, b) == 0`. -/
def strcmp_eq (a b : List Char) : Bool := decide (cstr a = cstr b)

/-- The API function `lua_getlocal(L, ar, n)`: the name of the `n`-th local of
the frame of `ar`, its value pushed; `none` (NULL) and nothing pushed when the
frame has no such local. -/
def lua_getlocal (M : Machine) (ar : lua_Debug) (n : Int) : Option (List Char) × Machine :=
  match M.frames.get? ar.i_ci with
  | none => (none, M)
  | some ci =>
    if 0 < n then
      match ci.locals.get? (n.toNat - 1) with
      | some (name, v) => (some name, { M with stack := v :: M.stack })
      | none => (none, M)
    else (none, M)

/-- The macro `lua_getglobal(L, s)`: push the global bound to the name, nil when
there is none (metamethods of the globals table are not modelled). -/
def lua_getglobal (M : Machine) (var : List Char) : Machine :=
  { M with stack := ((M.globals.lookup (cstr var)).getD LuaValue.nil) :: M.stack }

/-- The `for` loop of `search_local_var` (ldb.c:315-321), `i` the loop
variable; the fuel bounds the number of `lua_getlocal` calls. -/
def search_local_loop (ar : lua_Debug) (var : List Char) : Nat → Machine → Int → Option (Int × Machine)
  | 0, _, _ => none
  | fuel + 1, M, i =>
    match lua_getlocal M ar i with
    | (none, M1) => some (0, M1)
    | (some name, M1) =>
      if strcmp_eq var name then some (i, M1)
      else search_local_loop ar var fuel (lua_pop M1 1) (i + 1)

/-- The function `search_local_var` (ldb.c:310-323). -/
def search_local_var (fuel : Nat) (M : Machine) (ar : lua_Debug) (var : List Char) :
    Option (Int × Machine) :=
  search_local_loop ar var fuel M 1

/-- The function `search_global_var` (ldb.c:325-335). -/
def search_global_var (M : Machine) (_ar : lua_Debug) (var : List Char) : Int × Machine :=
  let M1 := lua_getglobal M var
  if lua_type M1 (-1) = LUA_TNIL then (0, lua_pop M1 1)
  else (1, M1)

/-- The function `print_handler` (ldb.c:286-308); the result is the returned
`int` and the machine, `none` when the fuel runs out. -/
def print_handler (pf : Printf) (fuel : Nat) (M : Machine) (ar : lua_Debug) (input : input_t) :
    Option (Int × Machine) :=
  if input.num < 2 then some (0, ldb_output M "usage: p <varname>\n".toList)
  else
    let var := input_token input 1
    match search_local_var fuel M ar var with
    | none => none
    | some (r, M1) =>
      if r ≠ 0 then
        let M2 := ldb_output M1 ("local ".toList ++ var ++ " =".toList)
        match print_var pf fuel M2 (-1) (-1) with
        | none => none
        | some M3 => some (0, ldb_output (lua_pop M3 1) ['\n'])
      else
        match search_global_var M1 ar var with
        | (g, M2) =>
          if g ≠ 0 then
            let M3 := ldb_output M2 ("global ".toList ++ var ++ " =".toList)
            match print_var pf fuel M3 (-1) (-1) with
            | none => none
            | some M4 => some (0, ldb_output (lua_pop M4 1) ['\n'])
          else some (0, ldb_output M2 ("not found var ".toList ++ var ++ ['\n']))

/-- The locals of the frame a `lua_Debug` record stands for. -/
def frame_locals (M : Machine) (ar : lua_Debug) : List (List Char × LuaValue) :=
  match M.frames.get? ar.i_ci with
  | none => []
  | some ci => ci.locals

/-- The value a global name is bound to, nil when it is not bound. -/
def global_value (M : Machine) (var : List Char) : LuaValue :=
  (M.globals.lookup (cstr var)).getD LuaValue.nil

/-! ## The hook and the session (ldb.c:68-150) -/

def lua_gethookmask (M : Machine) : Nat := M.hookmask

/-- The API function `lua_sethook` as in Lua 5.1 (`ldebug.c`): a NULL function
or a zero mask turns the hooks off; the mask is stored in a byte.  The count is
not modelled. -/
def lua_sethook (M : Machine) (func : Option lua_Hook) (mask : Nat) (_count : Int) : Machine :=
  if func = none ∨ mask = 0 then { M with hook := none, hookmask := 0 }
  else { M with hook := func, hookmask := mask % 256 }

/-- The function `enable_line_hook` (ldb.c:140-150).  The C expression
`~LUA_MASKLINE` is the 32-bit complement of the mask bit. -/
def enable_line_hook (M : Machine) (enable : Int) : Machine :=
  let mask := lua_gethookmask M
  if enable ≠ 0 then lua_sethook M (some .line_hook) (mask ||| LUA_MASKLINE) 0
  else lua_sethook M (some .line_hook) (mask &&& (4294967295 - LUA_MASKLINE)) 0

/-- The `ldb_t` object at an address (memory never written reads as zeros). -/
def ldb_at (M : Machine) (p : Nat) : ldb_t :=
  (M.ldbs.lookup p).getD { state := none, step := 0, call_depth := 0 }

/-- Write the `ldb_t` object at an address. -/
def ldb_store (M : Machine) (p : Nat) (l : ldb_t) : Machine :=
  { M with ldbs := (p, l) :: M.ldbs.filter (fun e => e.1 ≠ p) }

/-- The call `lua_settable(state, LUA_REGISTRYINDEX)`: the value on top is
stored in the registry under the key below it; both are popped. -/
def registry_set (M : Machine) : Machine :=
  match M.stack with
  | v :: k :: rest =>
    { M with stack := rest, registry := (k, v) :: M.registry.filter (fun e => e.1 ≠ k) }
  | _ => M

/-- The call `lua_gettable(state, LUA_REGISTRYINDEX)`: the key on top is
replaced by the value the registry holds for it (nil when it holds none). -/
def registry_get (M : Machine) : Machine :=
  match M.stack with
  | k :: rest => { M with stack := (M.registry.lookup k).getD LuaValue.nil :: rest }
  | [] => M

/-- The string `lua_debugger_tag`. -/
def lua_debugger_tag : List Char := "__ldb_debugger".toList

/-- The function `ldb_new` (ldb.c:68-88); `p` is what `malloc` returned
(`0` for NULL).  The result is the returned pointer and the machine. -/
def ldb_new (M : Machine) (p : Nat) : Nat × Machine :=
  if p = 0 then (0, M)
  else
    let M1 := ldb_store M p { ldb_at M p with step := 0, call_depth := 0 }
    let M2 := lua_pushstring M1 lua_debugger_tag
    let M3 := lua_pushlightuserdata M2 p
    let M4 := registry_set M3
    (p, M4)

/-- The function `ldb_attach` (ldb.c:106-111). -/
def ldb_attach (M : Machine) (ldb : Nat) : Machine :=
  let M1 := lua_pushlightuserdata M M.addr
  let M2 := lua_pushlightuserdata M1 ldb
  registry_set M2

/-- The function `single_step` (ldb.c:131-138); `ldb->state` is the VM of the machine. -/
def single_step (M : Machine) (ldb : Nat) (step : Int) : Machine :=
  let M1 := if step ≠ 0 then enable_line_hook M 1 else M
  ldb_store M1 ldb { ldb_at M1 ldb with step := step }

/-- The function `ldb_step_in` (ldb.c:113-129). -/
def ldb_step_in (M : Machine) (_step : Int) : Machine :=
  let M1 := lua_pushlightuserdata M M.addr
  let M2 := registry_get M1
  let ldb := lua_touserdata M2 (-1)
  if ldb = 0 then M2
  else
    let M3 := ldb_store M2 ldb { ldb_at M2 ldb with state := some M2.addr }
    let M4 := if (ldb_at M3 ldb).step = 0 then single_step M3 ldb 1 else M3
    ldb_store M4 ldb { ldb_at M4 ldb with call_depth := -1 }

/-! ## The commands and the command loop (ldb.c:51-66, 152-284, 416-537) -/

/-- The `%d` conversion of `ldb_output`. -/
def fmt_d (n : Int) : Text := (toString n).toList

/-- The function `set_prompt` (ldb.c:260-263). -/
def set_prompt (M : Machine) : Machine := ldb_output M "(ldb) ".toList

/-- The handlers a command entry can point to. -/
inductive handler_t where
  | help_handler
  | quit_handler
  | print_handler
  | backtrace_handler
  | list_handler
deriving DecidableEq

/-- An entry of the command table (`ldb_command_t`). -/
structure ldb_command_t where
  name : List Char
  help : Option (List Char)
  handler : handler_t
deriving DecidableEq

/-- The table `commands` (ldb.c:51-66), without its closing all-NULL entry. -/
def commands : List ldb_command_t :=
  [ { name := "help".toList, help := some "h(help): print help info".toList, handler := .help_handler },
    { name := "h".toList, help := none, handler := .help_handler },
    { name := "quit".toList, help := none, handler := .quit_handler },
    { name := "q".toList, help := some "q(quit): quit ldb".toList, handler := .quit_handler },
    { name := "p".toList, help := some "p <varname>: print var value".toList, handler := .print_handler },
    { name := "bt".toList, help := some "bt: print backtrace info".toList, handler := .backtrace_handler },
    { name := "list".toList, help := some "l(list): list file source".toList, handler := .list_handler },
    { name := "l".toList, help := none, handler := .list_handler } ]

/-- The function `help_handler` (ldb.c:265-276). -/
def help_handler (M : Machine) (_ar : lua_Debug) (_input : input_t) : Int × Machine :=
  let M1 := ldb_output M "Lua debugger written by Lichuang(2013)\ncmd:\n".toList
  (0, commands.foldl (fun acc c =>
    match c.help with
    | some h => ldb_output acc (['\t'] ++ h ++ ['\n'])
    | none => acc) M1)

/-- The function `quit_handler` (ldb.c:278-284). -/
def quit_handler (M : Machine) (_ar : lua_Debug) (_input : input_t) : Int × Machine :=
  (-1, enable_line_hook M 0)

/-- The API function `lua_getstack` for a level that is not negative: the
record of the frame at that level, `none` (0) when the call stack is shorter. -/
def lua_getstack (M : Machine) (level : Int) : Option lua_Debug :=
  if 0 ≤ level ∧ level.toNat < M.frames.length then
    some { i_ci := level.toNat, source := [], currentline := 0, name := none, what := [] }
  else none

/-- The API function `lua_getinfo` with the options `l`, `n`, `S`, `u`; with
valid options it does not fail, so the branch of `line_hook` that reports its
failure (ldb.c:223-226) is not taken. -/
def lua_getinfo (M : Machine) (ar : lua_Debug) : lua_Debug :=
  match M.frames.get? ar.i_ci with
  | some ci => { ar with source := ci.source, currentline := ci.currentline, name := ci.name,
                         what := ci.what }
  | none => ar

/-- The `for` loop of `dump_stack` (ldb.c:426-455). -/
def dump_stack_loop (depth : Int) : Nat → Machine → Int → Machine
  | 0, M, _ => M
  | fuel + 1, M, i =>
    match lua_getstack M i with
    | none => M
    | some ar0 =>
      let ar := lua_getinfo M ar0
      let M1 := ldb_output M (['#'] ++ fmt_d (i + 1 - depth) ++ [':', ' '] ++ ar.what ++ [':', '\'']
        ++ ar.name.getD [] ++ ['\'', ',', ' ', '\''] ++ ar.source ++ "' line ".toList
        ++ fmt_d ar.currentline ++ ['\n'])
      dump_stack_loop depth fuel M1 (i + 1)

/-- The function `dump_stack` (ldb.c:416-456); the loop ends at the first
level without a frame, after at most one call per frame and one more. -/
def dump_stack (M : Machine) (depth : Int) (_verbose : Int) : Machine :=
  dump_stack_loop depth (M.frames.length + 1) M depth

/-- The function `backtrace_handler` (ldb.c:501-506). -/
def backtrace_handler (M : Machine) (_ar : lua_Debug) (_input : input_t) : Int × Machine :=
  (0, dump_stack M 0 0)

/-- Modelled from the spec: `ldb_file_load` (in `ldb_util.c`, not among the
sources) "loads and indexes a source file's text by line number on demand;
caches by filename"; `none` is the NULL it returns for a file it cannot load. -/
def ldb_file_load (M : Machine) (_ldb : Nat) (name : List Char) : Option ldb_file_t :=
  M.files.lookup (cstr name)

/-- The first loop of `list_handler` (ldb.c:531-533): the indices `i` at which
it reads `file->lines[i]`, in order. -/
def list_before_loop (currentline : Int) : Nat → Int → List Int
  | 0, _ => []
  | n + 1, i => if i < currentline then i :: list_before_loop currentline n (i + 1) else []

/-- The second loop of `list_handler` (ldb.c:534-536), likewise. -/
def list_after_loop (line : Int) : Nat → Int → Int → List Int
  | 0, _, _ => []
  | n + 1, i, j => if j < 6 ∧ i < line then i :: list_after_loop line n (i + 1) (j + 1) else []

/-- The indices at which `list_handler` reads `file->lines[i]` for the current
line `currentline` and a file of `line` lines (ldb.c:527-536): the first loop
runs `currentline - i` times, the second at most 6 times. -/
def list_indices (currentline line : Int) : List Int :=
  let i := if currentline - 5 < 0 then 0 else currentline - 5
  list_before_loop currentline (currentline - i).toNat i ++ list_after_loop line 6 currentline 0

/-- One `ldb_output("%s:%d\t%s", file->name, i, file->lines[i])`; a read
outside the array (undefined in C) yields no text. -/
def list_line (file : ldb_file_t) (M : Machine) (i : Int) : Machine :=
  ldb_output M (file.name ++ [':'] ++ fmt_d i ++ ['\t']
    ++ (if 0 ≤ i then file.lines.getD i.toNat [] else []))

/-- The function `list_handler` (ldb.c:508-538). -/
def list_handler (M : Machine) (ar : lua_Debug) (_input : input_t) : Int × Machine :=
  let M1 := lua_pushstring M lua_debugger_tag
  let M2 := registry_get M1
  let ldb := lua_touserdata M2 (-1)
  if ldb = 0 then (-1, M2)
  else
    match ldb_file_load M2 ldb (ar.source.drop 1) with
    | none => (0, M2)
    | some file => (0, (list_indices ar.currentline file.line).foldl (list_line file) M2)

/-- A call through the pointer `commands[i].handler`. -/
def call_handler (pf : Printf) (fuel : Nat) (h : handler_t) (M : Machine) (ar : lua_Debug)
    (input : input_t) : Option (Int × Machine) :=
  match h with
  | .help_handler => some (help_handler M ar input)
  | .quit_handler => some (quit_handler M ar input)
  | .print_handler => print_handler pf fuel M ar input
  | .backtrace_handler => some (backtrace_handler M ar input)
  | .list_handler => some (list_handler M ar input)

/-- The function `get_input` (ldb.c:152-160) for one result of
`read(STDIN_FILENO, buff, 200)`: `none` is a failed read (-1), otherwise the
bytes read (none at end of input; at most 200 are taken).  The result is the
returned `int` and the C string then at `buff`. -/
def get_input (r : Option (List Char)) : Int × List Char :=
  match r with
  | none => (-1, [])
  | some bytes =>
    let len := (bytes.take LDB_MAX_INPUT).length
    if len > 0 then ((len : Int) - 1, cstr (bytes.take (len - 1)))
    else (-1, [])

/-- The C library function `isspace` in the C locale. -/
def isspace (c : Char) : Bool :=
  c = ' ' ∨ c = '\t' ∨ c = '\n' ∨ c = Char.ofNat 11 ∨ c = Char.ofNat 12 ∨ c = '\r'

/-- Store bytes in a memory image at an offset. -/
def mem_write (mem : List Char) (off : Nat) (bytes : List Char) : List Char :=
  mem.take off ++ bytes ++ mem.drop (off + bytes.length)

/-- The C library function `strncpy(mem + off, src, n)`: `n` bytes, those of the
C string `src` and NULs behind them when it is shorter. -/
def strncpy (mem : List Char) (off : Nat) (src : List Char) (n : Nat) : List Char :=
  mem_write mem off ((cstr src).take n ++ List.replicate (n - (cstr src).length) NUL)

/-- The C library function `strcpy(mem + off, src)`: the C string and its NUL. -/
def strcpy (mem : List Char) (off : Nat) (src : List Char) : List Char :=
  mem_write mem off (cstr src ++ [NUL])

/-- How the `while` loop of `split_input` ends: by the `return -1` inside it,
or by leaving the loop with the locals `save` (`none` is NULL, otherwise the
offset into `buff`), `i` and the bytes of `input->buffer`. -/
inductive split_exit where
  | too_many (buffer : List Char)
  | fell_out (save : Option Nat) (i : Nat) (buffer : List Char)
deriving DecidableEq

/-- The `while (p && *p)` loop of `split_input` (ldb.c:170-191): the second
argument is the rest of the string at `p`, the third the offset of `p`. -/
def split_input_loop (buff : List Char) :
    List Char → Nat → Option Nat → Nat → List Char → split_exit
  | [], _, save, i, mem => .fell_out save i mem
  | c :: rest, p, save, i, mem =>
    if c = '\n' then .fell_out save i mem
    else if isspace c then
      match save with
      | some s =>
        if i > LDB_MAX_PARAM then .too_many mem
        else split_input_loop buff rest (p + 1) none (i + 1)
          (strncpy mem (LDB_MAX_PARAM * i) (buff.drop s) (p - s))
      | none => split_input_loop buff rest (p + 1) none i mem
    else split_input_loop buff rest (p + 1) (if save = none then some p else save) i mem

/-- The function `split_input` (ldb.c:162-209) on the C string `buff`.  The
result is `none` when the final `strcpy` copies from the null pointer `save`
(undefined behaviour), otherwise the returned `int`, the machine, and the
record `*input`. -/
def split_input (M : Machine) (buff : List Char) (input : input_t) :
    Option (Int × Machine × input_t) :=
  match split_input_loop buff buff 0 none 0 input.buffer with
  | .too_many mem =>
    some (-1, ldb_output M ("param ".toList ++ buff ++ " more than ".toList ++ fmt_d LDB_MAX_PARAM),
      { input with buffer := mem })
  | .fell_out save i mem =>
    if i > LDB_MAX_PARAM then
      some (-1, ldb_output M ("param ".toList ++ buff ++ " more than ".toList ++ fmt_d LDB_MAX_PARAM),
        { input with buffer := mem })
    else
      match save with
      | none => none
      | some s =>
        some (0, M, { buffer := strcpy mem (LDB_MAX_PARAM * i) (buff.drop s), num := (i : Int) + 1 })

/-- Where one pass of the command loop leaves the session: still prompting
(the prompt has been written again), resumed (control is back in the VM),
stopped by undefined behaviour of the C code, or out of fuel. -/
inductive LoopStep where
  | prompting (M : Machine) (input : input_t)
  | resumed (M : Machine)
  | undefined
  | out_of_fuel
deriving DecidableEq

/-- The lookup in `commands` and the call of the handler (ldb.c:236-250),
for the tokens in `input` and the line `buff`. -/
def dispatch (pf : Printf) (fuel : Nat) (ar : lua_Debug) (M : Machine) (input : input_t)
    (buff : List Char) : LoopStep :=
  match commands.find? (fun c => strcmp_eq (input_token input 0) c.name) with
  | some c =>
    match call_handler pf fuel c.handler M ar input with
    | none => .out_of_fuel
    | some (ret, M1) => if ret < 0 then .resumed M1 else .prompting (set_prompt M1) input
  | none =>
    .prompting (set_prompt (ldb_output M
      ("bad command: ".toList ++ buff ++ ", ldb_output h for help\n".toList))) input

/-- One pass of the `while` loop of `line_hook` (ldb.c:230-251), for one
result of `read`. -/
def line_hook_pass (pf : Printf) (fuel : Nat) (ar : lua_Debug) (M : Machine) (input : input_t)
    (r : Option (List Char)) : LoopStep :=
  match get_input r with
  | (len, buff) =>
    if len > 0 then
      match split_input M buff input with
      | none => .undefined
      | some (ret, M1, input1) =>
        if ret < 0 then .prompting (set_prompt M1) input1
        else dispatch pf fuel ar M1 input1 buff
    else .resumed M

/-- The `while` loop of `line_hook` over the results of the successive reads
(when they are used up, the next read yields end of input). -/
def line_hook_loop (pf : Printf) (fuel : Nat) (ar : lua_Debug) :
    List (Option (List Char)) → Machine → input_t → LoopStep
  | [], M, _ => .resumed M
  | r :: rest, M, input =>
    match line_hook_pass pf fuel ar M input r with
    | .prompting M1 input1 => line_hook_loop pf fuel ar rest M1 input1
    | other => other

/-- The function `line_hook` (ldb.c:211-252); `input` is the content of the
uninitialised local `input` at entry. -/
def line_hook (pf : Printf) (fuel : Nat) (reads : List (Option (List Char))) (M : Machine)
    (input : input_t) : LoopStep :=
  match lua_getstack M 0 with
  | none => .resumed (ldb_output M "[LUA_DEBUG]lua_getstack fail\n".toList)
  | some ar0 => line_hook_loop pf fuel (lua_getinfo M ar0) reads (set_prompt M) input

/-! ## What the renderer emits, value by value -/

/-- The text of the lines of a table body: for each pair the indentation, the
key between brackets, the value, a comma and a newline.  `rk` and `rv` give
the text of a key and of a value (`none` when their rendering runs out of fuel). -/
def render_pairs (rk rv : LuaValue → Option Text) (depth : Int) :
    List (LuaValue × LuaValue) → Option Text
  | [] => some []
  | (k, v) :: rest =>
    match rk k, rv v, render_pairs rk rv depth rest with
    | some tk, some tv, some tr =>
      some (tabs depth ++ ['['] ++ tk ++ [']', ' ', '=', ' '] ++ tv ++ [',', '\n'] ++ tr)
    | _, _, _ => none

/-- The text `print_var` emits for the value `v` at depth `depth` over the
table store `heap`, computed on values instead of stack slots.  The theorem
`print_var_eq_render` shows it is what the embedded C code emits. -/
def render (pf : Printf) (heap : List (List (LuaValue × LuaValue))) :
    Nat → LuaValue → Int → Option Text
  | 0, _, _ => none
  | fuel + 1, v, depth =>
    match v with
    | .nil => some ['(', 'n', 'i', 'l', ')']
    | .number n => some (pf.fmt_f n)
    | .boolean b => some (if b then ['t', 'r', 'u', 'e'] else ['f', 'a', 'l', 's', 'e'])
    | .cfunction p =>
      if p ≠ 0 then some ("(C function)0x".toList ++ pf.fmt_p p) else some "(function)".toList
    | .lfunction _ => some "(function)".toList
    | .userdata p => some ("(user data)0x".toList ++ pf.fmt_p p)
    | .string s => some (print_string_text s)
    | .table id =>
      let pairs := table_pairs heap id
      if pairs.length ≤ fuel then
        (render_pairs (fun k => render pf heap fuel k (-1))
          (fun w => if depth > 5 then some ['{', '.', '.', '.', '}']
                    else render pf heap fuel w (depth + 1)) depth pairs).map
          (fun body => ['{'] ++ (if pairs.isEmpty then [' ', '}']
                                 else ['\n'] ++ body ++ tabs (depth - 1) ++ ['}']))
      else none
    | .lightuserdata _ => some []
    | .thread _ => some []

/-- A table as the VM keeps it: no key occurs twice and nil is no key. -/
def TableWF (t : List (LuaValue × LuaValue)) : Prop :=
  (t.map Prod.fst).Nodup ∧ LuaValue.nil ∉ t.map Prod.fst

instance (t : List (LuaValue × LuaValue)) : Decidable (TableWF t) := by
  unfold TableWF; infer_instance

/-- Every table of the store is well formed. -/
def HeapWF (heap : List (List (LuaValue × LuaValue))) : Prop :=
  ∀ t ∈ heap, TableWF t

instance (heap : List (List (LuaValue × LuaValue))) : Decidable (HeapWF heap) := by
  unfold HeapWF; infer_instance

/-- The text `print_var` emits for a value `v`, measured on the embedded code
itself: push `v` on an empty stack, render index -1, read the sink. -/
def print_var_text (pf : Printf) (fuel : Nat) (heap : List (List (LuaValue × LuaValue)))
    (v : LuaValue) (depth : Int) : Option Text :=
  (print_var pf fuel { Machine.init with heap := heap, stack := [v] } (-1) depth).map
    (fun M => M.out)

/-- What the loop lemma asks of the function passed for `print_var`: on a
machine over `heap`, for a value `v` at index `idx`, it appends the text
`R v d` and changes nothing else, or runs out of fuel when `R v d` is `none`. -/
def PvSpec (pv : Machine → Int → Int → Option Machine) (R : LuaValue → Int → Option Text)
    (heap : List (List (LuaValue × LuaValue))) : Prop :=
  ∀ (M : Machine) (idx : Int) (v : LuaValue) (d : Int),
    M.heap = heap → index2adr M idx = some v → pv M idx d = (R v d).map (ldb_output M)

/-! ## Sample inputs -/

/-- A table that has itself as a key: `t = {}; t[t] = true`. -/
def self_key_machine : Machine :=
  { Machine.init with stack := [.table 0], heap := [[(.table 0, .boolean true)]] }

/-- A chain of `n` tables nested through values: table `i` is `{ a = <table i+1> }`. -/
def chain_links (n : Nat) : List (List (LuaValue × LuaValue)) :=
  (List.range n).map (fun i => [(LuaValue.string ['a'], LuaValue.table (i + 1))])

/-- The text of one link `{ a = … }` of such a chain rendered at depth `d`,
`t` being the text of its value. -/
def link_text (d : Int) (t : Text) : Text :=
  ['{', '\n'] ++ tabs d ++ ['[', '"', 'a', '"', ']', ' ', '=', ' '] ++ t ++ [',', '\n']
    ++ tabs (d - 1) ++ ['}']

/-- A frame with the locals `y = 7`, `x = true`, `x = false` (in this order),
the global `x = "g"`, and the tokens `p` and `x` in the input record. -/
def sample_frame_machine : Machine :=
  { Machine.init with
    frames := [{ source := ['@', 'f'], currentline := 3, name := none, what := ['m', 'a', 'i', 'n'],
                 locals := [(['y'], .number 7), (['x'], .boolean true), (['x'], .boolean false)] }],
    globals := [(['x'], .string ['g'])] }

def sample_ar : lua_Debug :=
  { i_ci := 0, source := ['@', 'f'], currentline := 3, name := none, what := ['m', 'a', 'i', 'n'] }

def sample_input_p_x : input_t :=
  { buffer := ['p', NUL, NUL, NUL, NUL, 'x', NUL], num := 2 }

/-- The session history `ldb_new`, `ldb_attach`, `ldb_step_in` on a fresh VM;
`malloc` returned the address 16. -/
def session_stepping : Machine :=
  ldb_step_in (ldb_attach (ldb_new Machine.init 16).2 16) 1

/-- The same history followed by the command `quit`. -/
def session_after_quit : Machine :=
  (quit_handler session_stepping sample_ar sample_input_p_x).2

/-- An input record whose memory is all zero. -/
def blank_input : input_t := { buffer := List.replicate 1000 NUL, num := 0 }

/-- The input record `split_input` leaves for the line `q`, starting from `blank_input`. -/
def sample_input_q : input_t :=
  { buffer := strcpy blank_input.buffer 0 ['q'], num := 1 }

/-- A machine with the debugger's hook installed and the mask bits call, return and line. -/
def sample_hooked_machine : Machine :=
  { Machine.init with hook := some .line_hook, hookmask := 7 }

/-- No session is registered: the registry lookup of `list_handler`
(ldb.c:514-516) under `lua_debugger_tag` yields a NULL pointer. -/
def session_missing (M : Machine) : Prop :=
  lua_touserdata (registry_get (lua_pushstring M lua_debugger_tag)) (-1) = 0

instance (M : Machine) : Decidable (session_missing M) := by
  unfold session_missing; infer_instance

/-- A machine with a registered session (address 16) and the 3-line file `f` in reach of
`ldb_file_load`; the frame of `sample_ar` has the source `@f`. -/
def sample_list_machine : Machine :=
  { sample_frame_machine with
    registry := [(.string lua_debugger_tag, .lightuserdata 16)],
    files := [(['f'], { name := ['f'], lines := [['a', '\n'], ['b', '\n'], ['c', '\n']], line := 3 })] }

/-- The sample file of `sample_list_machine`. -/
def sample_file : ldb_file_t :=
  { name := ['f'], lines := [['a', '\n'], ['b', '\n'], ['c', '\n']], line := 3 }

/-- The largest number of pairs of a table of the store. -/
def max_pairs (heap : List (List (LuaValue × LuaValue))) : Nat :=
  (heap.map List.length).foldr max 0

/-- The rank of a value under a ranking of the tables: above the rank of the
table it refers to, zero for a value that is no table. -/
def value_rank (rank : Nat → Nat) (v : LuaValue) : Nat :=
  match v with
  | .table id => rank id + 1
  | _ => 0

/-- A table store without reference cycles: some ranking of the tables goes
down along every reference from a table to a table among its keys and values. -/
def Acyclic (heap : List (List (LuaValue × LuaValue))) (rank : Nat → Nat) : Prop :=
  ∀ (id : Nat), ∀ p ∈ table_pairs heap id,
    value_rank rank p.1 ≤ rank id ∧ value_rank rank p.2 ≤ rank id

/-- A table nested in a table, `{ a = { b = true } }`, at the bottom of a stack
with one more value above it (so it has the indices 1 and -2). -/
def sample_nested_machine : Machine :=
  { Machine.init with
    stack := [.number 3, .table 0],
    heap := [[(.string ['a'], .table 1)], [(.string ['b'], .boolean true)]] }

/-- The whitespace-delimited tokens of a line, as the specification speaks of
them: the maximal runs of characters that are not white space, in order.
`cur` is the token read so far. -/
def tokens_go (cur : List Char) : List Char → List (List Char)
  | [] => if cur = [] then [] else [cur]
  | c :: rest =>
    if isspace c then (if cur = [] then tokens_go [] rest else cur :: tokens_go [] rest)
    else tokens_go (cur ++ [c]) rest

/-- The whitespace-delimited tokens of a line. -/
def tokens (line : List Char) : List (List Char) := tokens_go [] line

/-- The number of tokens that a white space ends in the rest of a line;
`intok` tells whether a token is being read at its start. -/
def completed_tokens : Bool → List Char → Nat
  | _, [] => 0
  | intok, c :: rest =>
    if isspace c then (if intok then 1 else 0) + completed_tokens false rest
    else completed_tokens true rest

/-- Whether a token is still being read at the end of the line. -/
def token_pending : Bool → List Char → Bool
  | intok, [] => intok
  | _, c :: rest => if isspace c then token_pending false rest else token_pending true rest

/-- The text in the sink where a pass of the command loop ends (empty when
the pass does not end in a machine). -/
def LoopStep.out : LoopStep → Text
  | .prompting M _ => M.out
  | .resumed M => M.out
  | .undefined => []
  | .out_of_fuel => []

/-! ## The depth ceiling, counted in nesting levels -/

/-- The rendering as the depth ceiling describes it, by nesting level: `level`
counts the containers passed through values between the printed top-level
value (level 0) and `v`.  A table that lies at most 7 levels below the top is
expanded pair by pair: each key is rendered as a top-level value, each value
lies one level further down, and a value that would lie more than 7 levels
below the top is not rendered at all - the placeholder `{...}` stands in its
place, whatever the value is or contains.  The lines of a table at level `n`
are indented by `n - 1` tabs and its closing brace by `n - 2`. -/
def render_by_level (pf : Printf) (heap : List (List (LuaValue × LuaValue))) :
    Nat → Nat → LuaValue → Option Text
  | 0, _, _ => none
  | fuel + 1, level, v =>
    match v with
    | .nil => some ['(', 'n', 'i', 'l', ')']
    | .number n => some (pf.fmt_f n)
    | .boolean b => some (if b then ['t', 'r', 'u', 'e'] else ['f', 'a', 'l', 's', 'e'])
    | .cfunction p =>
      if p ≠ 0 then some ("(C function)0x".toList ++ pf.fmt_p p) else some "(function)".toList
    | .lfunction _ => some "(function)".toList
    | .userdata p => some ("(user data)0x".toList ++ pf.fmt_p p)
    | .string s => some (print_string_text s)
    | .table id =>
      let pairs := table_pairs heap id
      if pairs.length ≤ fuel then
        (render_pairs (fun k => render_by_level pf heap fuel 0 k)
          (fun w => if level + 1 > 7 then some ['{', '.', '.', '.', '}']
                    else render_by_level pf heap fuel (level + 1) w)
          ((level : Int) - 1) pairs).map
          (fun body => ['{'] ++ (if pairs.isEmpty then [' ', '}']
                                 else ['\n'] ++ body ++ tabs ((level : Int) - 2) ++ ['}']))
      else none
    | .lightuserdata _ => some []
    | .thread _ => some []

/-- Two tables that are keys of each other, the first of them at stack index 1
below a number: `t = {}; u = {}; t[u] = true; u[t] = true`. -/
def mutual_key_machine : Machine :=
  { Machine.init with
    stack := [.number 3, .table 0],
    heap := [[(.table 1, .boolean true)], [(.table 0, .boolean true)]] }

/-! ## Lemmas: strings -/

theorem print_string_loop_acc (val : List Char) (vallen : Nat) :
    ∀ (fuel i : Nat) (out : Text),
      print_string_loop val vallen fuel i out = out ++ print_string_loop val vallen fuel i [] := by
  intro fuel
  induction fuel with
  | zero => intro i out; simp [print_string_loop]
  | succ n ih =>
    intro i out
    have key : ∀ (j : Nat) (a : Text), print_string_loop val vallen n j (out ++ a)
        = out ++ print_string_loop val vallen n j a := by
      intro j a
      rw [ih j (out ++ a), ih j a, List.append_assoc]
    simp only [print_string_loop]
    split_ifs <;> first
      | exact key _ _
      | simp

theorem print_string_var_out (M : Machine) (si depth : Int) (s : List Char)
    (h : index2adr M si = some (.string s)) :
    print_string_var M si depth = ldb_output M (print_string_text s) := by
  have h1 : index2adr (ldb_output M ['"']) si = some (.string s) := by
    simpa [index2adr, ldb_output] using h
  simp only [print_string_var, lua_strlen, lua_tostring, h1, print_string_text]
  rw [print_string_loop_acc]
  simp [ldb_output, print_string_loop_acc s s.length s.length 0 ['"']]

/-! ## Lemmas: the renderer on the stack agrees with `render` -/

theorem table_next_mid (pre post : List (LuaValue × LuaValue)) (k v : LuaValue)
    (hnd : ((pre ++ (k, v) :: post).map Prod.fst).Nodup) (hk : k ≠ LuaValue.nil) :
    table_next (pre ++ (k, v) :: post) k = post.head? := by
  unfold table_next
  rw [if_neg hk]
  induction pre with
  | nil => simp [List.dropWhile]
  | cons p pre ih =>
    have hp : p.1 ≠ k := by
      intro h
      simp [List.nodup_cons, h] at hnd
    have hnd2 : ((pre ++ (k, v) :: post).map Prod.fst).Nodup := by
      simp only [List.cons_append, List.map_cons, List.nodup_cons] at hnd
      exact hnd.2
    simp only [List.cons_append, List.dropWhile_cons]
    simp only [ne_eq, hp, not_false_eq_true, decide_True, if_true]
    exact ih hnd2

theorem print_table_loop_spec (pv : Machine → Int → Int → Option Machine)
    (R : LuaValue → Int → Option Text) (heap : List (List (LuaValue × LuaValue)))
    (hpv : PvSpec pv R heap) (depth pos : Int) (id : Nat) (S : List LuaValue)
    (hpos : ∀ (M : Machine) (x : LuaValue), M.stack = x :: S →
      index2adr M pos = some (.table id))
    (hwf : TableWF (table_pairs heap id)) :
    ∀ (post : List (LuaValue × LuaValue)) (n : Nat) (M : Machine) (key : LuaValue)
      (empty : Bool),
      M.heap = heap → (∃ pre, table_pairs heap id = pre ++ post) →
      table_next (table_pairs heap id) key = post.head? → M.stack = key :: S →
      print_table_loop pv pos depth n M empty =
        if post.length < n then
          (render_pairs (fun k => R k (-1))
            (fun w => if depth > 5 then some ['{', '.', '.', '.', '}'] else R w (depth + 1))
            depth post).map
            (fun body =>
              ({ M with stack := S,
                        out := M.out ++ (if empty && !post.isEmpty then ['\n'] else []) ++ body },
               empty && post.isEmpty))
        else none := by
  have hk1 : ∀ (M4 : Machine) (k : LuaValue), M4.heap = heap → index2adr M4 (-2) = some k →
      pv M4 (-2) (-1) = ((fun k => R k (-1)) k).map (ldb_output M4) :=
    fun M4 k h4 hi => hpv M4 (-2) k (-1) h4 hi
  have hv1 : ∀ (M6 : Machine) (w : LuaValue), M6.heap = heap → index2adr M6 (-1) = some w →
      (if depth > 5 then some (ldb_output M6 ['{', '.', '.', '.', '}'])
        else pv M6 (-1) (depth + 1))
      = ((fun w => if depth > 5 then some ['{', '.', '.', '.', '}'] else R w (depth + 1)) w).map
          (ldb_output M6) := by
    intro M6 w h6 hi
    by_cases hd : depth > 5
    · simp [hd]
    · simp only [hd, if_false]
      exact hpv M6 (-1) w (depth + 1) h6 hi
  generalize (fun k => R k (-1)) = rk at hk1 ⊢
  generalize (fun w => if depth > 5 then some ['{', '.', '.', '.', '}']
    else R w (depth + 1)) = rv at hv1 ⊢
  intro post
  induction post with
  | nil =>
    intro n M key empty hheap _ hnext hstack
    cases n with
    | zero => simp [print_table_loop]
    | succ n =>
      have hidx := hpos M key hstack
      simp [print_table_loop, lua_next, hstack, hidx, hheap, hnext, render_pairs]
  | cons p post ih =>
    intro n M key empty hheap hsplit hnext hstack
    obtain ⟨k, v⟩ := p
    cases n with
    | zero => simp [print_table_loop]
    | succ n =>
      obtain ⟨pre, hpre⟩ := hsplit
      have hidx := hpos M key hstack
      have hkn : k ≠ LuaValue.nil := by
        intro h
        apply hwf.2
        rw [hpre]
        simp [h]
      have hnext2 : table_next (table_pairs heap id) k = post.head? := by
        rw [hpre]
        apply table_next_mid _ _ _ _ _ hkn
        rw [← hpre]
        exact hwf.1
      have hsplit2 : ∃ pre2, table_pairs heap id = pre2 ++ post :=
        ⟨pre ++ [(k, v)], by simp [hpre]⟩
      simp only [print_table_loop, lua_next, hstack, hidx, hheap, hnext, List.head?_cons]
      rw [hk1 _ k (by cases empty <;> simp [ldb_output, hheap])
        (by cases empty <;> simp [ldb_output, index2adr])]
      cases hrk : rk k with
      | none => simp [render_pairs, hrk]
      | some tk =>
        simp only [Option.map_some']
        rw [hv1 _ v (by cases empty <;> simp [ldb_output, hheap])
          (by cases empty <;> simp [ldb_output, index2adr])]
        cases hrv : rv v with
        | none => simp [render_pairs, hrk, hrv]
        | some tv =>
          simp only [Option.map_some']
          rw [ih n _ k false (by cases empty <;> simp [ldb_output, lua_pop, lua_settop, hheap])
            hsplit2 hnext2 (by cases empty <;> simp [ldb_output, lua_pop, lua_settop])]
          simp only [render_pairs, hrk, hrv, List.length_cons, Nat.add_lt_add_iff_right]
          by_cases hn : post.length < n
          · simp only [hn, if_true]
            cases hrest : render_pairs rk rv depth post with
            | none => simp
            | some tr =>
              cases empty <;> simp [ldb_output, lua_pop, lua_settop]
          · simp [hn]

theorem index2adr_under_push (M M2 : Machine) (x : LuaValue) (si : Int) (v : LuaValue)
    (hsi : index2adr M si = some v) (hstack : M2.stack = x :: M.stack) :
    index2adr M2 (if si > 0 then si else si - 1) = some v := by
  unfold index2adr at hsi ⊢
  by_cases hpos : 0 < si
  · simp only [hpos, if_true] at hsi
    by_cases hle : si ≤ (M.stack.length : Int)
    · simp only [hle, if_true] at hsi
      have hle2 : si ≤ ((M2.stack.length : Nat) : Int) := by
        rw [hstack]; simp only [List.length_cons]; omega
      have hidx : M2.stack.length - si.toNat = (M.stack.length - si.toNat) + 1 := by
        rw [hstack]; simp only [List.length_cons]; omega
      simp only [gt_iff_lt, hpos, if_true, hle2, hidx]
      rw [hstack]
      simpa using hsi
    · simp [hle] at hsi
  · by_cases hneg : si < 0
    · simp only [hpos, if_false, hneg, if_true] at hsi
      have h1 : ¬ (0 < si - 1) := by omega
      have h2 : si - 1 < 0 := by omega
      have hidx : (-(si - 1)).toNat - 1 = ((-si).toNat - 1) + 1 := by omega
      simp only [gt_iff_lt, hpos, if_false, h1, h2, if_true, hidx]
      rw [hstack]
      simpa using hsi
    · simp [hpos, hneg] at hsi

theorem TableWF_of_HeapWF (heap : List (List (LuaValue × LuaValue))) (h : HeapWF heap)
    (id : Nat) : TableWF (table_pairs heap id) := by
  unfold table_pairs
  by_cases hid : id < heap.length
  · apply h
    rw [List.getD_eq_getElem _ _ hid]
    exact List.getElem_mem _
  · rw [List.getD_eq_default _ _ (by omega)]
    exact ⟨by simp, by simp⟩

theorem print_table_var_spec (pv : Machine → Int → Int → Option Machine)
    (R : LuaValue → Int → Option Text) (heap : List (List (LuaValue × LuaValue)))
    (hpv : PvSpec pv R heap) (n : Nat) (M : Machine) (si depth : Int) (id : Nat)
    (hheap : M.heap = heap) (hsi : index2adr M si = some (.table id))
    (hwf : TableWF (table_pairs heap id)) :
    print_table_var pv n M si depth =
      if (table_pairs heap id).length < n then
        (render_pairs (fun k => R k (-1))
          (fun w => if depth > 5 then some ['{', '.', '.', '.', '}'] else R w (depth + 1))
          depth (table_pairs heap id)).map
          (fun body => ldb_output M (['{'] ++
            (if (table_pairs heap id).isEmpty then [' ', '}']
             else ['\n'] ++ body ++ tabs (depth - 1) ++ ['}'])))
      else none := by
  have hloop := print_table_loop_spec pv R heap hpv depth (if si > 0 then si else si - 1) id
    M.stack (fun M2 x hs => index2adr_under_push M M2 x si _ hsi hs) hwf
    (table_pairs heap id) n (lua_pushnil (ldb_output M ['{'])) LuaValue.nil true
    (by simp [lua_pushnil, ldb_output, hheap]) ⟨[], by simp⟩ (by simp [table_next])
    (by simp [lua_pushnil, ldb_output])
  unfold print_table_var
  simp only [hloop]
  by_cases hn : (table_pairs heap id).length < n
  · simp only [hn, if_true]
    cases hbody : render_pairs (fun k => R k (-1))
        (fun w => if depth > 5 then some ['{', '.', '.', '.', '}'] else R w (depth + 1))
        depth (table_pairs heap id) with
    | none => simp
    | some body =>
      cases hp : table_pairs heap id with
      | nil =>
        rw [hp] at hbody
        simp only [render_pairs, Option.some.injEq] at hbody
        subst hbody
        simp [lua_settop, lua_gettop, lua_pushnil, ldb_output]
      | cons p rest =>
        simp [lua_settop, lua_gettop, lua_pushnil, ldb_output]
  · simp [hn]

theorem print_var_table (pf : Printf) (fuel : Nat) (M : Machine) (idx d : Int) (id : Nat)
    (hidx : index2adr M idx = some (.table id)) :
    print_var pf (fuel + 1) M idx d = print_table_var (print_var pf fuel) (fuel + 1) M idx d := by
  simp [print_var, lua_type, hidx, LUA_TNIL, LUA_TNUMBER, LUA_TBOOLEAN, LUA_TFUNCTION,
    LUA_TUSERDATA, LUA_TSTRING, LUA_TTABLE]

theorem print_var_string (pf : Printf) (fuel : Nat) (M : Machine) (idx d : Int) (s : List Char)
    (hidx : index2adr M idx = some (.string s)) :
    print_var pf (fuel + 1) M idx d = some (print_string_var M idx d) := by
  simp [print_var, lua_type, hidx, LUA_TNIL, LUA_TNUMBER, LUA_TBOOLEAN, LUA_TFUNCTION,
    LUA_TUSERDATA, LUA_TSTRING, LUA_TTABLE]

/-- The embedded `print_var` emits exactly `render`: on every machine whose
table store is well formed, for the value `v` at index `idx`, the call returns
the machine with `render … v d` appended to the sink and nothing else changed,
and it runs out of fuel exactly when `render` does. -/
theorem print_var_eq_render (pf : Printf) (heap : List (List (LuaValue × LuaValue)))
    (hwf : HeapWF heap) (fuel : Nat) :
    PvSpec (print_var pf fuel) (render pf heap fuel) heap := by
  induction fuel with
  | zero =>
    intro M idx v d _ _
    simp [print_var, render]
  | succ fuel ih =>
    intro M idx v d hheap hidx
    cases v with
    | table id =>
      have h := print_table_var_spec (print_var pf fuel) (render pf heap fuel) heap ih
        (fuel + 1) M idx d id hheap hidx (TableWF_of_HeapWF heap hwf id)
      rw [print_var_table pf fuel M idx d id hidx, h]
      simp only [render]
      by_cases hn : (table_pairs heap id).length ≤ fuel
      · have hn2 : (table_pairs heap id).length < fuel + 1 := by omega
        simp only [hn, hn2, if_true, Option.map_map]
        rfl
      · have hn2 : ¬ (table_pairs heap id).length < fuel + 1 := by omega
        simp [hn, hn2]
    | string s =>
      rw [print_var_string pf fuel M idx d s hidx, print_string_var_out M idx d s hidx]
      simp [render]
    | cfunction p =>
      by_cases hp : p = 0 <;>
      simp [print_var, lua_type, hidx, render, lua_tocfunction, hp, LUA_TNIL, LUA_TNUMBER,
        LUA_TBOOLEAN, LUA_TFUNCTION, LUA_TUSERDATA, LUA_TSTRING, LUA_TTABLE]
    | boolean b =>
      cases b <;>
      simp [print_var, lua_type, hidx, render, lua_toboolean, LUA_TNIL, LUA_TNUMBER,
        LUA_TBOOLEAN, LUA_TFUNCTION, LUA_TUSERDATA, LUA_TSTRING, LUA_TTABLE]
    | _ =>
      simp [print_var, lua_type, hidx, render, lua_tonumber, lua_touserdata, lua_tocfunction,
        ldb_output, LUA_TNIL, LUA_TNUMBER, LUA_TBOOLEAN, LUA_TFUNCTION, LUA_TUSERDATA,
        LUA_TSTRING, LUA_TTABLE, LUA_TLIGHTUSERDATA, LUA_TTHREAD]

theorem print_var_text_eq_render (pf : Printf) (heap : List (List (LuaValue × LuaValue)))
    (hwf : HeapWF heap) (fuel : Nat) (v : LuaValue) (depth : Int) :
    print_var_text pf fuel heap v depth = render pf heap fuel v depth := by
  unfold print_var_text
  rw [print_var_eq_render pf heap hwf fuel _ (-1) v depth rfl (by simp [index2adr, Machine.init])]
  cases render pf heap fuel v depth <;> simp [ldb_output, Machine.init]

theorem render_pairs_mono (rk rv rk2 rv2 : LuaValue → Option Text) (d : Int)
    (hk : ∀ k t, rk k = some t → rk2 k = some t) (hv : ∀ w t, rv w = some t → rv2 w = some t) :
    ∀ (ps : List (LuaValue × LuaValue)) (t : Text),
      render_pairs rk rv d ps = some t → render_pairs rk2 rv2 d ps = some t := by
  intro ps
  induction ps with
  | nil => intro t h; simpa [render_pairs] using h
  | cons p ps ih =>
    intro t h
    obtain ⟨k, w⟩ := p
    simp only [render_pairs] at h ⊢
    cases hrk : rk k with
    | none => simp [hrk] at h
    | some tk =>
      cases hrv : rv w with
      | none => simp [hrk, hrv] at h
      | some tv =>
        cases hrest : render_pairs rk rv d ps with
        | none => simp [hrk, hrv, hrest] at h
        | some tr =>
          simp only [hrk, hrv, hrest] at h
          simp only [hk k tk hrk, hv w tv hrv, ih tr hrest]
          exact h

/-- More fuel does not change a result: once `render` yields a text, it yields
the same text with any larger amount of fuel. -/
theorem render_mono (pf : Printf) (heap : List (List (LuaValue × LuaValue))) :
    ∀ (fuel : Nat) (v : LuaValue) (d : Int) (t : Text),
      render pf heap fuel v d = some t → render pf heap (fuel + 1) v d = some t := by
  intro fuel
  induction fuel with
  | zero => intro v d t h; simp [render] at h
  | succ n ih =>
    intro v d t h
    cases v with
    | table id =>
      have hunf : ∀ m : Nat, render pf heap (m + 1) (.table id) d =
          if (table_pairs heap id).length ≤ m then
            (render_pairs (fun k => render pf heap m k (-1))
              (fun w => if d > 5 then some ['{', '.', '.', '.', '}']
                        else render pf heap m w (d + 1)) d (table_pairs heap id)).map
              (fun body => ['{'] ++ (if (table_pairs heap id).isEmpty then [' ', '}']
                                     else ['\n'] ++ body ++ tabs (d - 1) ++ ['}']))
          else none := fun _ => rfl
      rw [hunf] at h ⊢
      by_cases hl : (table_pairs heap id).length ≤ n
      · have hl2 : (table_pairs heap id).length ≤ n + 1 := by omega
        simp only [hl, hl2, if_true] at h ⊢
        cases hb : render_pairs (fun k => render pf heap n k (-1))
            (fun w => if d > 5 then some ['{', '.', '.', '.', '}']
                      else render pf heap n w (d + 1)) d (table_pairs heap id) with
        | none => simp [hb] at h
        | some body =>
          rw [hb] at h
          rw [render_pairs_mono _ _ _ _ d (fun k t hk => ih k (-1) t hk)
            (fun w t hw => by
              by_cases hd : d > 5
              · simpa [hd] using hw
              · simp only [hd, if_false] at hw ⊢
                exact ih w (d + 1) t hw) _ body hb]
          exact h
      · simp [hl] at h
    | _ => exact h

theorem print_var_text_mono (pf : Printf) (heap : List (List (LuaValue × LuaValue)))
    (hwf : HeapWF heap) (v : LuaValue) (d : Int) (t : Text) (fuel : Nat)
    (h : print_var_text pf fuel heap v d = some t) :
    ∀ (extra : Nat), print_var_text pf (fuel + extra) heap v d = some t := by
  intro extra
  induction extra with
  | zero => exact h
  | succ n ih =>
    rw [print_var_text_eq_render pf heap hwf] at ih ⊢
    exact render_mono pf heap (fuel + n) v d t ih

/-- A cycle through a value is cut by the depth guard: for `t = {}; t.s = t`
the top-level render returns (8 levels are expanded, then the placeholder). -/
theorem print_var_self_value_returns :
    (print_var_text sample_printf 9 [[(.string ['s'], .table 0)]] (.table 0) (-1)).isSome = true := by
  decide

/-! ## Lemmas: variable lookup -/

theorem lua_getlocal_eq (M : Machine) (ar : lua_Debug) (n : Int) :
    lua_getlocal M ar n =
      if 0 < n then
        match (frame_locals M ar).get? (n.toNat - 1) with
        | some (name, v) => (some name, { M with stack := v :: M.stack })
        | none => (none, M)
      else (none, M) := by
  unfold lua_getlocal frame_locals
  cases M.frames.get? ar.i_ci with
  | none => simp
  | some ci => simp

theorem lua_pop_push (M : Machine) (v : LuaValue) :
    lua_pop { M with stack := v :: M.stack } 1 = M := by
  simp [lua_pop, lua_settop]

theorem search_local_loop_spec (ar : lua_Debug) (var : List Char) (M : Machine) :
    ∀ (post pre : List (List Char × LuaValue)) (fuel : Nat),
      frame_locals M ar = pre ++ post → post.length < fuel →
      search_local_loop ar var fuel M (pre.length + 1) =
        match post.find? (fun l => strcmp_eq var l.1) with
        | some l => some ((pre.length + post.findIdx (fun l => strcmp_eq var l.1) + 1 : Nat),
            { M with stack := l.2 :: M.stack })
        | none => some (0, M) := by
  intro post
  induction post with
  | nil =>
    intro pre fuel hloc hfuel
    cases fuel with
    | zero => simp at hfuel
    | succ fuel =>
      have h0 : (0 : Int) < (pre.length : Int) + 1 := by omega
      have h1 : ((pre.length : Int) + 1).toNat - 1 = pre.length := by omega
      simp [search_local_loop, lua_getlocal_eq, hloc, h0, h1]
  | cons l post ih =>
    intro pre fuel hloc hfuel
    cases fuel with
    | zero => simp at hfuel
    | succ fuel =>
      obtain ⟨name, v⟩ := l
      have h0 : (0 : Int) < (pre.length : Int) + 1 := by omega
      have h1 : ((pre.length : Int) + 1).toNat - 1 = pre.length := by omega
      have hget : (pre ++ (name, v) :: post).get? pre.length = some (name, v) := by
        rw [List.get?_eq_getElem?, List.getElem?_append_right (le_refl _)]
        simp
      simp only [search_local_loop, lua_getlocal_eq, hloc, h0, h1, if_true, hget]
      by_cases hm : strcmp_eq var name = true
      · simp [hm, List.find?_cons, List.findIdx_cons]
      · have hm2 : strcmp_eq var name = false := by simpa using hm
        have hih := ih (pre ++ [(name, v)]) fuel (by simp [hloc])
          (by simp only [List.length_cons] at hfuel; omega)
        simp only [List.length_append, List.length_singleton, Nat.cast_add, Nat.cast_one] at hih
        simp only [hm2, Bool.false_eq_true, if_false, lua_pop_push, hih, List.find?_cons,
          List.findIdx_cons, cond_false]
        cases post.find? (fun l => strcmp_eq var l.1) with
        | none => rfl
        | some l2 =>
          simp only [Option.some.injEq, Prod.mk.injEq, and_true]
          push_cast
          omega

theorem lua_type_top_nil_iff (M : Machine) (v : LuaValue) (S : List LuaValue)
    (hs : M.stack = v :: S) : lua_type M (-1) = LUA_TNIL ↔ v = LuaValue.nil := by
  have h : index2adr M (-1) = some v := by simp [index2adr, hs]
  cases v <;>
    simp [lua_type, h, LUA_TNIL, LUA_TBOOLEAN, LUA_TLIGHTUSERDATA, LUA_TNUMBER, LUA_TSTRING,
      LUA_TTABLE, LUA_TFUNCTION, LUA_TUSERDATA, LUA_TTHREAD]

theorem print_var_pushed (pf : Printf) (fuel : Nat) (M : Machine) (hwf : HeapWF M.heap)
    (v : LuaValue) (label : Text) :
    (match print_var pf fuel (ldb_output { M with stack := v :: M.stack } label) (-1) (-1) with
      | none => none
      | some M3 => some ((0 : Int), ldb_output (lua_pop M3 1) ['\n']))
    = (print_var_text pf fuel M.heap v (-1)).map
        (fun t => ((0 : Int), ldb_output M (label ++ t ++ ['\n']))) := by
  rw [print_var_text_eq_render pf M.heap hwf,
    print_var_eq_render pf M.heap hwf fuel _ (-1) v (-1) (by simp [ldb_output])
      (by simp [index2adr, ldb_output])]
  cases render pf M.heap fuel v (-1) with
  | none => simp
  | some t => simp [ldb_output, lua_pop, lua_settop]

/-! ## The properties of the specification -/

/-- C1: for every frame and every name given to `p` (at least two tokens),
`print_handler` returns 0 and leaves the machine as it was but for the text
it appends: when some local of the frame has the name (compared as C strings,
in `lua_getlocal` order), the label `local <name> =`, the text `print_var`
emits at depth -1 for the value of the FIRST such local, and a newline - whatever
the globals hold; otherwise, when the global of that name is not nil, the same
with the label `global`; otherwise the report `not found var <name>`. -/
theorem print_handler_resolves_local_then_global (pf : Printf) (fuel : Nat) (M : Machine)
    (ar : lua_Debug) (input : input_t) (hwf : HeapWF M.heap) (hnum : 2 ≤ input.num)
    (hfuel : (frame_locals M ar).length < fuel) :
    print_handler pf fuel M ar input =
      match (frame_locals M ar).find? (fun l => strcmp_eq (input_token input 1) l.1) with
      | some l =>
        (print_var_text pf fuel M.heap l.2 (-1)).map (fun t =>
          (0, ldb_output M ("local ".toList ++ input_token input 1 ++ " =".toList ++ t ++ ['\n'])))
      | none =>
        if global_value M (input_token input 1) = LuaValue.nil then
          some (0, ldb_output M ("not found var ".toList ++ input_token input 1 ++ ['\n']))
        else
          (print_var_text pf fuel M.heap (global_value M (input_token input 1)) (-1)).map (fun t =>
            (0, ldb_output M ("global ".toList ++ input_token input 1 ++ " =".toList ++ t ++ ['\n']))) := by
  have hn : ¬ input.num < 2 := by omega
  have hloop := search_local_loop_spec ar (input_token input 1) M (frame_locals M ar) [] fuel
    (by simp) hfuel
  simp only [List.length_nil, Nat.cast_zero, zero_add] at hloop
  simp only [print_handler, hn, if_false, search_local_var, hloop]
  cases hfind : (frame_locals M ar).find? (fun l => strcmp_eq (input_token input 1) l.1) with
  | some l =>
    have hr : ((List.findIdx (fun l => strcmp_eq (input_token input 1) l.1) (frame_locals M ar) + 1
        : Nat) : Int) ≠ 0 := by omega
    simp only [hr, ne_eq, not_false_eq_true, if_true]
    exact print_var_pushed pf fuel M hwf l.2 _
  | none =>
    simp only [ne_eq, not_true_eq_false, if_false, search_global_var]
    have hty := lua_type_top_nil_iff (lua_getglobal M (input_token input 1))
      (global_value M (input_token input 1)) M.stack (by simp [lua_getglobal, global_value])
    by_cases hg : global_value M (input_token input 1) = LuaValue.nil
    · have ht : lua_type (lua_getglobal M (input_token input 1)) (-1) = LUA_TNIL := hty.2 hg
      have hpop : lua_pop (lua_getglobal M (input_token input 1)) 1 = M := by
        simp [lua_getglobal, lua_pop, lua_settop]
      simp [ht, hg, hpop]
    · have ht : ¬ lua_type (lua_getglobal M (input_token input 1)) (-1) = LUA_TNIL :=
        fun h => hg (hty.1 h)
      simp only [ht, hg, if_false, ne_eq, one_ne_zero, not_false_eq_true, if_true]
      exact print_var_pushed pf fuel M hwf (global_value M (input_token input 1)) _

/-- C1 at a concrete input: the name `x` is a local twice and a global; the first local wins. -/
theorem print_handler_resolves_witness :
    HeapWF sample_frame_machine.heap ∧ 2 ≤ sample_input_p_x.num ∧
    (frame_locals sample_frame_machine sample_ar).length < 5 ∧
    print_handler sample_printf 5 sample_frame_machine sample_ar sample_input_p_x
      = some (0, ldb_output sample_frame_machine "local x =true\n".toList) := by
  refine ⟨by decide, by decide, by decide, ?_⟩
  rw [print_handler_resolves_local_then_global sample_printf 5 sample_frame_machine sample_ar
    sample_input_p_x (by decide) (by decide) (by decide)]
  decide

theorem render_self_key_none (pf : Printf) :
    ∀ (fuel : Nat) (d : Int), render pf [[(.table 0, .boolean true)]] fuel (.table 0) d = none := by
  intro fuel
  induction fuel with
  | zero => intro d; simp [render]
  | succ fuel ih =>
    intro d
    simp [render, table_pairs, render_pairs, ih]

/-- C2 fails on the code: for the table `t` with `t[t] = true` the top-level
render `print_var(state, -1, -1)` never returns - with any amount of fuel the
embedded call runs out of it, because the key is rendered at depth -1 again. -/
theorem print_var_self_key_never_returns (pf : Printf) (fuel : Nat) :
    print_var pf fuel self_key_machine (-1) (-1) = none := by
  rw [print_var_eq_render pf self_key_machine.heap (by decide) fuel self_key_machine (-1)
    (.table 0) (-1) rfl (by decide)]
  simp [self_key_machine, Machine.init, render_self_key_none]

/-- C3 fails on the code: for the two bytes `a`, backslash the embedded
`print_string_var` emits the backslash once (inside the run that starts at
`a`), the byte-by-byte escaper emits it twice. -/
theorem print_string_var_misses_backslash_in_run :
    (print_string_var { Machine.init with stack := [.string ['a', '\\']] } (-1) (-1)).out
      = ['"', 'a', '\\', '"'] ∧
    escape_bytewise ['a', '\\'] = ['"', 'a', '\\', '\\', '"'] := by
  decide

/-- C4: for the 4-byte string tab, quote, backslash, `a` at any stack index,
`print_string_var` appends exactly the 9 characters quote, backslash, `t`,
backslash, quote, backslash, backslash, `a`, quote. -/
theorem print_string_var_tab_quote_backslash_a (M : Machine) (si depth : Int)
    (h : index2adr M si = some (.string ['\t', '"', '\\', 'a'])) :
    print_string_var M si depth
      = ldb_output M ['"', '\\', 't', '\\', '"', '\\', '\\', 'a', '"'] := by
  rw [print_string_var_out M si depth _ h]
  rfl

/-- C4 at a concrete machine: the string on top of the stack. -/
theorem print_string_var_tab_quote_backslash_a_witness :
    (print_string_var { Machine.init with stack := [.string ['\t', '"', '\\', 'a']] } (-1) (-1)).out
      = ['"', '\\', 't', '\\', '"', '\\', '\\', 'a', '"'] := by
  rw [print_string_var_tab_quote_backslash_a _ (-1) (-1) (by decide)]
  decide

/-- C5: `print_table_var` at depth `d`, on the table at index `si` of a
machine with a well-formed table store, appends an opening brace and, for a
non-empty table, one line per pair in traversal order: the key as `print_var`
emits it at depth -1 and, as the value, the literal `{...}` when `d > 5` -
whatever the value is, it is not rendered - and the text `print_var` emits for
it at depth `d + 1` when `d <= 5`.  Nothing else of the machine changes. -/
theorem print_table_var_depth_guard (pf : Printf) (fuel : Nat) (M : Machine) (si depth : Int)
    (id : Nat) (hwf : HeapWF M.heap) (hsi : index2adr M si = some (.table id)) :
    print_table_var (print_var pf fuel) (fuel + 1) M si depth =
      if (table_pairs M.heap id).length ≤ fuel then
        (render_pairs (fun k => print_var_text pf fuel M.heap k (-1))
          (fun w => if depth > 5 then some ['{', '.', '.', '.', '}']
                    else print_var_text pf fuel M.heap w (depth + 1))
          depth (table_pairs M.heap id)).map
          (fun body => ldb_output M (['{'] ++
            (if (table_pairs M.heap id).isEmpty then [' ', '}']
             else ['\n'] ++ body ++ tabs (depth - 1) ++ ['}'])))
      else none := by
  have h := print_table_var_spec (print_var pf fuel) (render pf M.heap fuel) M.heap
    (print_var_eq_render pf M.heap hwf fuel) (fuel + 1) M si depth id rfl hsi
    (TableWF_of_HeapWF M.heap hwf id)
  have hk : (fun k => print_var_text pf fuel M.heap k (-1))
      = (fun k => render pf M.heap fuel k (-1)) :=
    funext fun k => print_var_text_eq_render pf M.heap hwf fuel k (-1)
  have hv : (fun w => if depth > 5 then some ['{', '.', '.', '.', '}']
        else print_var_text pf fuel M.heap w (depth + 1))
      = (fun w => if depth > 5 then some ['{', '.', '.', '.', '}']
        else render pf M.heap fuel w (depth + 1)) :=
    funext fun w => by rw [print_var_text_eq_render pf M.heap hwf fuel w (depth + 1)]
  rw [h, hk, hv]
  simp only [Nat.lt_succ_iff]

/-- C5 at a concrete input: at depth 6 a table whose value is the table that
cannot be rendered (it has itself as a key) is printed with `{...}` for that
value; at depth 5 the value (here `true`) is rendered. -/
theorem print_table_var_depth_guard_witness :
    (print_table_var (print_var sample_printf 3) 4
      { Machine.init with
        stack := [.table 1],
        heap := [[(.table 0, .boolean true)], [(.string ['k'], .table 0)]] } (-1) 6).map
        (fun M => M.out)
      = some "\x7b\n\t\t\t\t\t\t[\"k\"] = \x7b...\x7d,\n\t\t\t\t\t\x7d".toList ∧
    (print_table_var (print_var sample_printf 3) 4
      { Machine.init with stack := [.table 0], heap := [[(.string ['k'], .boolean true)]] } (-1) 5).map
        (fun M => M.out)
      = some "\x7b\n\t\t\t\t\t[\"k\"] = true,\n\t\t\t\t\x7d".toList := by
  constructor
  · rw [print_table_var_depth_guard sample_printf 3 _ (-1) 6 1 (by decide) (by decide)]
    decide
  · rw [print_table_var_depth_guard sample_printf 3 _ (-1) 5 0 (by decide) (by decide)]
    decide

theorem render_link (pf : Printf) (heap : List (List (LuaValue × LuaValue))) (fuel id : Nat)
    (w : LuaValue) (d : Int) (hp : table_pairs heap id = [(.string ['a'], w)]) :
    render pf heap (fuel + 2) (.table id) d =
      (if d > 5 then some ['{', '.', '.', '.', '}'] else render pf heap (fuel + 1) w (d + 1)).map
        (link_text d) := by
  have hunf : render pf heap (fuel + 2) (.table id) d =
      if (table_pairs heap id).length ≤ fuel + 1 then
        (render_pairs (fun k => render pf heap (fuel + 1) k (-1))
          (fun w => if d > 5 then some ['{', '.', '.', '.', '}']
                    else render pf heap (fuel + 1) w (d + 1)) d (table_pairs heap id)).map
          (fun body => ['{'] ++ (if (table_pairs heap id).isEmpty then [' ', '}']
                                 else ['\n'] ++ body ++ tabs (d - 1) ++ ['}']))
      else none := rfl
  have hkey : render pf heap (fuel + 1) (.string ['a']) (-1) = some ['"', 'a', '"'] := rfl
  have h1 : 1 ≤ fuel + 1 := by omega
  rw [hunf, hp]
  simp only [List.length_singleton, h1, if_true, render_pairs, hkey]
  generalize (if d > 5 then some ['{', '.', '.', '.', '}']
    else render pf heap (fuel + 1) w (d + 1)) = r
  cases r with
  | none => rfl
  | some t => simp [link_text]

theorem HeapWF_append (h1 h2 : List (List (LuaValue × LuaValue))) (w1 : HeapWF h1)
    (w2 : HeapWF h2) : HeapWF (h1 ++ h2) := by
  intro t ht
  rcases List.mem_append.1 ht with h | h
  · exact w1 t h
  · exact w2 t h

/-- C6 fails as stated: in a top-level render (depth -1) the container 6
levels below the printed value is expanded in full (its pair `b = true` is
printed), and the container 7 levels below is expanded key by key (its key
`b` is printed, its value replaced by the placeholder). -/
theorem print_var_expands_levels_6_and_7 :
    print_var_text sample_printf 12 (chain_links 6 ++ [[(.string ['b'], .boolean true)]])
        (.table 0) (-1)
      = some ("\x7b\n[\"a\"] = \x7b\n[\"a\"] = \x7b\n\t[\"a\"] = \x7b\n\t\t[\"a\"] = \x7b\n\t\t\t[\"a\"] = \x7b\n\t\t\t\t[\"a\"] = \x7b\n\t\t\t\t\t[\"b\"] = true,\n\t\t\t\t\x7d,\n\t\t\t\x7d,\n\t\t\x7d,\n\t\x7d,\n\x7d,\n\x7d,\n\x7d").toList ∧
    print_var_text sample_printf 12 (chain_links 7 ++ [[(.string ['b'], .boolean true)]])
        (.table 0) (-1)
      = some ("\x7b\n[\"a\"] = \x7b\n[\"a\"] = \x7b\n\t[\"a\"] = \x7b\n\t\t[\"a\"] = \x7b\n\t\t\t[\"a\"] = \x7b\n\t\t\t\t[\"a\"] = \x7b\n\t\t\t\t\t[\"a\"] = \x7b\n\t\t\t\t\t\t[\"b\"] = \x7b...\x7d,\n\t\t\t\t\t\x7d,\n\t\t\t\t\x7d,\n\t\t\t\x7d,\n\t\t\x7d,\n\t\x7d,\n\x7d,\n\x7d,\n\x7d").toList := by
  decide

/-- The chain of 8 single-pair links in a top-level render (depth -1): the
container 8 levels below the printed value - and with it everything below - is
never expanded: whatever the table store holds behind the first 8 links, the
text is the 8 expanded links with the placeholder `{...}` in the place of the
8th level. -/
theorem print_var_placeholder_from_level_8 (pf : Printf) (fuel : Nat)
    (rest : List (List (LuaValue × LuaValue))) (hrest : HeapWF rest) (hfuel : 9 ≤ fuel) :
    print_var_text pf fuel (chain_links 8 ++ rest) (.table 0) (-1)
      = some ("\x7b\n[\"a\"] = \x7b\n[\"a\"] = \x7b\n\t[\"a\"] = \x7b\n\t\t[\"a\"] = \x7b\n\t\t\t[\"a\"] = \x7b\n\t\t\t\t[\"a\"] = \x7b\n\t\t\t\t\t[\"a\"] = \x7b\n\t\t\t\t\t\t[\"a\"] = \x7b...\x7d,\n\t\t\t\t\t\x7d,\n\t\t\t\t\x7d,\n\t\t\t\x7d,\n\t\t\x7d,\n\t\x7d,\n\x7d,\n\x7d,\n\x7d").toList := by
  obtain ⟨f, rfl⟩ : ∃ f, fuel = f + 9 := ⟨fuel - 9, by omega⟩
  rw [print_var_text_eq_render pf _ (HeapWF_append _ _ (by decide) hrest)]
  have h7 : render pf (chain_links 8 ++ rest) (f + 2) (.table 7) 6
      = some (link_text 6 ['{', '.', '.', '.', '}']) := by
    rw [render_link pf (chain_links 8 ++ rest) f 7 (.table 8) 6 rfl]; rfl
  have h6 : render pf (chain_links 8 ++ rest) (f + 3) (.table 6) 5
      = some (link_text 5 (link_text 6 ['{', '.', '.', '.', '}'])) := by
    rw [render_link pf (chain_links 8 ++ rest) (f + 1) 6 (.table 7) 5 rfl]
    simp only [show ¬ ((5 : Int) > 5) by decide, if_false]
    rw [show (5 : Int) + 1 = 6 by rfl, h7]; rfl
  have h5 : render pf (chain_links 8 ++ rest) (f + 4) (.table 5) 4
      = some (link_text 4 (link_text 5 (link_text 6 ['{', '.', '.', '.', '}']))) := by
    rw [render_link pf (chain_links 8 ++ rest) (f + 2) 5 (.table 6) 4 rfl]
    simp only [show ¬ ((4 : Int) > 5) by decide, if_false]
    rw [show (4 : Int) + 1 = 5 by rfl, h6]; rfl
  have h4 : render pf (chain_links 8 ++ rest) (f + 5) (.table 4) 3
      = some (link_text 3 (link_text 4 (link_text 5 (link_text 6 ['{', '.', '.', '.', '}'])))) := by
    rw [render_link pf (chain_links 8 ++ rest) (f + 3) 4 (.table 5) 3 rfl]
    simp only [show ¬ ((3 : Int) > 5) by decide, if_false]
    rw [show (3 : Int) + 1 = 4 by rfl, h5]; rfl
  have h3 : render pf (chain_links 8 ++ rest) (f + 6) (.table 3) 2
      = some (link_text 2 (link_text 3 (link_text 4 (link_text 5
          (link_text 6 ['{', '.', '.', '.', '}']))))) := by
    rw [render_link pf (chain_links 8 ++ rest) (f + 4) 3 (.table 4) 2 rfl]
    simp only [show ¬ ((2 : Int) > 5) by decide, if_false]
    rw [show (2 : Int) + 1 = 3 by rfl, h4]; rfl
  have h2 : render pf (chain_links 8 ++ rest) (f + 7) (.table 2) 1
      = some (link_text 1 (link_text 2 (link_text 3 (link_text 4 (link_text 5
          (link_text 6 ['{', '.', '.', '.', '}'])))))) := by
    rw [render_link pf (chain_links 8 ++ rest) (f + 5) 2 (.table 3) 1 rfl]
    simp only [show ¬ ((1 : Int) > 5) by decide, if_false]
    rw [show (1 : Int) + 1 = 2 by rfl, h3]; rfl
  have h1 : render pf (chain_links 8 ++ rest) (f + 8) (.table 1) 0
      = some (link_text 0 (link_text 1 (link_text 2 (link_text 3 (link_text 4 (link_text 5
          (link_text 6 ['{', '.', '.', '.', '}']))))))) := by
    rw [render_link pf (chain_links 8 ++ rest) (f + 6) 1 (.table 2) 0 rfl]
    simp only [show ¬ ((0 : Int) > 5) by decide, if_false]
    rw [show (0 : Int) + 1 = 1 by rfl, h2]; rfl
  rw [render_link pf (chain_links 8 ++ rest) (f + 7) 0 (.table 1) (-1) rfl]
  simp only [show ¬ ((-1 : Int) > 5) by decide, if_false]
  rw [show (-1 : Int) + 1 = 0 by rfl, h1]
  decide

/-- The chain of 8 links at a concrete table store: behind the 8 links the
9th table refers back to the first one. -/
theorem print_var_placeholder_from_level_8_witness :
    HeapWF [[(LuaValue.string ['z'], LuaValue.table 0)]] ∧ 9 ≤ 9 ∧
    print_var_text sample_printf 9 (chain_links 8 ++ [[(.string ['z'], .table 0)]]) (.table 0) (-1)
      = some ("\x7b\n[\"a\"] = \x7b\n[\"a\"] = \x7b\n\t[\"a\"] = \x7b\n\t\t[\"a\"] = \x7b\n\t\t\t[\"a\"] = \x7b\n\t\t\t\t[\"a\"] = \x7b\n\t\t\t\t\t[\"a\"] = \x7b\n\t\t\t\t\t\t[\"a\"] = \x7b...\x7d,\n\t\t\t\t\t\x7d,\n\t\t\t\t\x7d,\n\t\t\t\x7d,\n\t\t\x7d,\n\t\x7d,\n\x7d,\n\x7d,\n\x7d").toList :=
  ⟨by decide, by decide,
    print_var_placeholder_from_level_8 sample_printf 9 _ (by decide) (by decide)⟩

/-! ## Lemmas: hook and commands -/

theorem line_bit_clear (m : Nat) : ((m &&& (4294967295 - LUA_MASKLINE)) % 256) &&& LUA_MASKLINE = 0 := by
  apply Nat.eq_of_testBit_eq
  intro i
  have h256 : (256 : Nat) = 2 ^ 8 := by rfl
  have h4 : LUA_MASKLINE = 2 ^ 2 := by rfl
  rw [Nat.testBit_and, h256, Nat.testBit_mod_two_pow, Nat.testBit_and, h4, Nat.testBit_two_pow]
  by_cases h : 2 = i
  · subst h
    have h2 : Nat.testBit 4294967291 2 = false := by decide
    simp [h2]
  · simp [h]

theorem enable_line_hook_off_mask (M : Machine) :
    (enable_line_hook M 0).hookmask &&& LUA_MASKLINE = 0 := by
  unfold enable_line_hook lua_sethook lua_gethookmask
  by_cases h : M.hookmask &&& (4294967295 - LUA_MASKLINE) = 0
  · simp [h]
  · simp only [ne_eq, not_true_eq_false, if_false, h, or_false]
    simp only [reduceCtorEq, if_false]
    exact line_bit_clear M.hookmask

/-- C7: `quit` and `q` are dispatched alike.  For every machine, frame record
and token list whose token 0 is `quit` or `q`, the lookup in `commands` calls
`quit_handler`: the pass of the command loop ends resumed (the handler
returned -1) on the machine `enable_line_hook(state, 0)` leaves; in that
machine the per-line bit of the hook mask is clear; and the loop of
`line_hook` that read such a line ends there, whatever input follows. -/
theorem quit_and_q_dispatch_alike (pf : Printf) (fuel : Nat) (ar : lua_Debug) (M : Machine)
    (input : input_t) (buff : List Char)
    (h : input_token input 0 = "quit".toList ∨ input_token input 0 = "q".toList) :
    dispatch pf fuel ar M input buff = .resumed (enable_line_hook M 0) ∧
    (enable_line_hook M 0).hookmask &&& LUA_MASKLINE = 0 ∧
    (∀ (r : Option (List Char)) (rest : List (Option (List Char))) (input0 : input_t),
      (get_input r).1 > 0 → split_input M (get_input r).2 input0 = some (0, M, input) →
      line_hook_loop pf fuel ar (r :: rest) M input0 = .resumed (enable_line_hook M 0)) := by
  have hq : commands.find? (fun c => strcmp_eq "quit".toList c.name)
      = some { name := "quit".toList, help := none, handler := .quit_handler } := by decide
  have hq2 : commands.find? (fun c => strcmp_eq "q".toList c.name)
      = some { name := "q".toList, help := some "q(quit): quit ldb".toList,
               handler := .quit_handler } := by decide
  have hd : ∀ b : List Char, dispatch pf fuel ar M input b = .resumed (enable_line_hook M 0) := by
    intro b
    rcases h with h | h
    · unfold dispatch
      rw [h, hq]
      simp [call_handler, quit_handler]
    · unfold dispatch
      rw [h, hq2]
      simp [call_handler, quit_handler]
  refine ⟨hd buff, enable_line_hook_off_mask M, ?_⟩
  intro r rest input0 hlen hsplit
  rcases hgi : get_input r with ⟨len, b⟩
  rw [hgi] at hlen hsplit
  simp only [line_hook_loop, line_hook_pass, hgi]
  simp only [gt_iff_lt] at hlen
  simp only [gt_iff_lt, hlen, if_true, hsplit, lt_self_iff_false, if_false, hd b]

/-- C7 at concrete inputs: token 0 `quit` with a further token, and the line
`q` read by the loop (with `h` typed after it), the line hook being on with
mask 7 (call, return and line): both end resumed with mask 3. -/
theorem quit_and_q_dispatch_alike_witness :
    (input_token { buffer := "quit".toList ++ [NUL, 'n', 'o', 'w', NUL], num := 2 } 0 = "quit".toList ∨
      input_token { buffer := "quit".toList ++ [NUL, 'n', 'o', 'w', NUL], num := 2 } 0 = "q".toList) ∧
    dispatch sample_printf 5 sample_ar sample_hooked_machine
        { buffer := "quit".toList ++ [NUL, 'n', 'o', 'w', NUL], num := 2 } "quit now".toList
      = .resumed { Machine.init with hook := some .line_hook, hookmask := 3 } ∧
    line_hook_loop sample_printf 5 sample_ar [some ['q', '\n'], some ['h', '\n']]
        sample_hooked_machine blank_input
      = .resumed { Machine.init with hook := some .line_hook, hookmask := 3 } := by
  refine ⟨by decide, ?_, ?_⟩
  · rw [(quit_and_q_dispatch_alike sample_printf 5 sample_ar _ _ _ (by decide)).1]
    decide
  · rw [(quit_and_q_dispatch_alike sample_printf 5 sample_ar sample_hooked_machine sample_input_q []
      (by decide)).2.2 (some ['q', '\n']) [some ['h', '\n']] blank_input (by decide) (by decide)]
    decide

/-- C8 fails on the code: after `ldb_new`, `ldb_attach`, `ldb_step_in` and
the command `quit`, a further `ldb_step_in` returns with the per-line bit of
the hook mask still clear and no hook installed: the `step` flag is still 1,
so `single_step` is not called. -/
theorem ldb_step_in_after_quit_leaves_hook_off :
    (ldb_step_in session_after_quit 1).hookmask &&& LUA_MASKLINE = 0 ∧
    (ldb_step_in session_after_quit 1).hook = none ∧
    (ldb_at session_after_quit 16).step = 1 ∧
    session_stepping.hookmask &&& LUA_MASKLINE = LUA_MASKLINE := by
  decide

/-- C9 fails on the code: in the state reached by `ldb_new`, `ldb_attach`,
`ldb_step_in` and the command `quit` the session's `step` flag is 1 while the
per-line bit of the hook mask is clear (before `quit` both were set). -/
theorem step_flag_stale_after_quit :
    (ldb_at session_after_quit 16).step ≠ 0 ∧
    session_after_quit.hookmask &&& LUA_MASKLINE = 0 ∧
    (ldb_at session_stepping 16).step ≠ 0 ∧
    session_stepping.hookmask &&& LUA_MASKLINE ≠ 0 := by
  decide

/-! ## Lemmas: the command loop -/

theorem cstr_input_token (input : input_t) (i : Nat) :
    cstr (input_token input i) = input_token input i := by
  unfold input_token cstr
  exact List.takeWhile_idem

theorem list_before_loop_eq (L : Int) :
    ∀ (n : Nat) (i : Int),
      list_before_loop L n i = (List.range (min n (L - i).toNat)).map (fun (k : Nat) => i + (k : Int)) := by
  intro n
  induction n with
  | zero => intro i; simp [list_before_loop]
  | succ n ih =>
    intro i
    by_cases h : i < L
    · have hm : min (n + 1) (L - i).toNat = min n (L - (i + 1)).toNat + 1 := by omega
      simp only [list_before_loop, h, if_true, ih, hm, List.range_succ_eq_map, List.map_cons,
        List.map_map]
      simp only [Nat.cast_zero, add_zero, List.cons.injEq, true_and]
      apply List.map_congr_left
      intro k _
      simp only [Function.comp, Nat.cast_succ]
      omega
    · have hm : min (n + 1) (L - i).toNat = 0 := by omega
      simp [list_before_loop, h, hm]

theorem list_after_loop_eq (N : Int) :
    ∀ (n : Nat) (i j : Int),
      list_after_loop N n i j
        = (List.range (min n (min (6 - j).toNat (N - i).toNat))).map (fun (k : Nat) => i + (k : Int)) := by
  intro n
  induction n with
  | zero => intro i j; simp [list_after_loop]
  | succ n ih =>
    intro i j
    by_cases h : j < 6 ∧ i < N
    · have hm : min (n + 1) (min (6 - j).toNat (N - i).toNat)
          = min n (min (6 - (j + 1)).toNat (N - (i + 1)).toNat) + 1 := by omega
      simp only [list_after_loop, h, and_self, if_true, ih, hm, List.range_succ_eq_map,
        List.map_cons, List.map_map]
      simp only [Nat.cast_zero, add_zero, List.cons.injEq, true_and]
      apply List.map_congr_left
      intro k _
      simp only [Function.comp, Nat.cast_succ]
      omega
    · have hm : min (n + 1) (min (6 - j).toNat (N - i).toNat) = 0 := by omega
      simp only [list_after_loop, h, if_false, hm, List.range_zero, List.map_nil]

theorem list_indices_eq (L N : Int) (h0 : 0 ≤ L) (hN : L ≤ N) :
    list_indices L N
      = (List.range (L - max 0 (L - 5)).toNat).map (fun (k : Nat) => max 0 (L - 5) + (k : Int))
        ++ (List.range (min (L + 6) N - L).toNat).map (fun (k : Nat) => L + (k : Int)) := by
  unfold list_indices
  simp only [list_before_loop_eq, list_after_loop_eq]
  have hi : (if L - 5 < 0 then (0 : Int) else L - 5) = max 0 (L - 5) := by
    split_ifs <;> omega
  rw [hi]
  have h1 : min (L - max 0 (L - 5)).toNat (L - max 0 (L - 5)).toNat = (L - max 0 (L - 5)).toNat :=
    Nat.min_self _
  have h2 : min 6 (min (6 - (0 : Int)).toNat (N - L).toNat) = (min (L + 6) N - L).toNat := by
    omega
  rw [h1, h2]

theorem list_indices_increasing (L N : Int) (h0 : 0 ≤ L) (hN : L ≤ N) :
    (list_indices L N).Pairwise (fun a b => a < b) := by
  rw [list_indices_eq L N h0 hN, List.pairwise_append]
  refine ⟨?_, ?_, ?_⟩
  · rw [List.pairwise_map]
    exact List.Pairwise.imp (fun h => by omega) (List.pairwise_lt_range _)
  · rw [List.pairwise_map]
    exact List.Pairwise.imp (fun h => by omega) (List.pairwise_lt_range _)
  · intro a ha b hb
    simp only [List.mem_map, List.mem_range] at ha hb
    obtain ⟨k, hk, rfl⟩ := ha
    obtain ⟨j, _, rfl⟩ := hb
    omega

/-- C13: when the session is registered and the file of the frame is loaded,
for a current line `L` with `0 <= L <= N` (`N` the number of lines of the
file) `list_handler` returns 0 and prints, in this order, the lines with the
indices `max(0, L-5), ..., L-1` and then `L, ..., min(L+6, N)-1`: a strictly
increasing sequence, so each index once. -/
theorem list_handler_window (M : Machine) (ar : lua_Debug) (input : input_t) (file : ldb_file_t)
    (hs : ¬ session_missing M)
    (hf : ldb_file_load (registry_get (lua_pushstring M lua_debugger_tag))
      (lua_touserdata (registry_get (lua_pushstring M lua_debugger_tag)) (-1))
      (ar.source.drop 1) = some file)
    (h0 : 0 ≤ ar.currentline) (hN : ar.currentline ≤ file.line) :
    list_handler M ar input
      = (0, (list_indices ar.currentline file.line).foldl (list_line file)
          (registry_get (lua_pushstring M lua_debugger_tag))) ∧
    list_indices ar.currentline file.line
      = (List.range (ar.currentline - max 0 (ar.currentline - 5)).toNat).map
          (fun (k : Nat) => max 0 (ar.currentline - 5) + (k : Int))
        ++ (List.range (min (ar.currentline + 6) file.line - ar.currentline).toNat).map
          (fun (k : Nat) => ar.currentline + (k : Int)) ∧
    (list_indices ar.currentline file.line).Pairwise (fun a b => a < b) := by
  refine ⟨?_, list_indices_eq _ _ h0 hN, list_indices_increasing _ _ h0 hN⟩
  unfold session_missing at hs
  simp only [list_handler, hs, if_false, hf]

/-- C13 at concrete inputs: a file of 100 lines at current line 3 gives the
indices 0,1,2 then 3,...,8; and the `list` command on the sample machine
(3-line file, current line 3) prints the lines 0, 1, 2. -/
theorem list_handler_window_witness :
    list_indices 3 100 = [0, 1, 2, 3, 4, 5, 6, 7, 8] ∧
    ¬ session_missing sample_list_machine ∧
    (0 : Int) ≤ sample_ar.currentline ∧ sample_ar.currentline ≤ sample_file.line ∧
    (list_handler sample_list_machine sample_ar blank_input).2.out
      = "f:0\ta\nf:1\tb\nf:2\tc\n".toList := by
  refine ⟨by decide, by decide, by decide, by decide, ?_⟩
  rw [(list_handler_window sample_list_machine sample_ar blank_input sample_file (by decide)
    (by decide) (by decide) (by decide)).1]
  decide

/-- C17 fails on the code: for a file of 3 lines and the current line 5 the
first loop of `list_handler` reads `file->lines[i]` at the indices 0 to 4, two
of them behind the end of the array (only the second loop tests
`i < file->line`); for the current line -1 the second loop starts at index -1. -/
theorem list_handler_reads_outside_file :
    list_indices 5 3 = [0, 1, 2, 3, 4] ∧
    list_indices (-1) 3 = [-1, 0, 1, 2] ∧
    (list_handler sample_list_machine { sample_ar with currentline := 5 } blank_input).2.out
      = "f:0\ta\nf:1\tb\nf:2\tc\nf:3\tf:4\t".toList := by
  decide

theorem list_indices_length_le (L N : Int) : (list_indices L N).length ≤ 11 := by
  unfold list_indices
  simp only [list_before_loop_eq, list_after_loop_eq, List.length_append, List.length_map,
    List.length_range]
  split_ifs <;> omega

/-! ## Lemmas: the hook mask -/

theorem byte_mask_line_off : ∀ m, m < 256 →
    (m &&& (4294967295 - LUA_MASKLINE)) % 256 = m &&& 251 ∧
    ((m &&& (4294967295 - LUA_MASKLINE) = 0) ↔ m &&& 251 = 0) := by
  decide

theorem byte_mask_line_on : ∀ m, m < 256 →
    (m ||| LUA_MASKLINE) % 256 = m ||| 4 ∧ m ||| LUA_MASKLINE ≠ 0 := by
  decide

theorem testBit_251 (i : Nat) (hi : i ≠ 2) (h8 : i < 8) : Nat.testBit 251 i = true := by
  interval_cases i <;> first | rfl | exact absurd rfl hi

theorem testBit_byte_high (m i : Nat) (hm : m < 256) (h8 : 8 ≤ i) : Nat.testBit m i = false := by
  apply Nat.testBit_lt_two_pow
  calc m < 2 ^ 8 := hm
    _ ≤ 2 ^ i := Nat.pow_le_pow_right (by decide) h8

theorem byte_mask_closure : ∀ m, m < 256 →
    (m ||| 4) < 256 ∧ (m ||| 4) ||| 4 = m ||| 4 ∧ (m &&& 251) < 256 ∧
    (m &&& 251) &&& 251 = m &&& 251 := by
  decide

theorem enable_line_hook_eq (M : Machine) (enable : Int) (hm : M.hookmask < 256) :
    enable_line_hook M enable =
      if enable ≠ 0 then
        { M with hook := some .line_hook, hookmask := M.hookmask ||| 4 }
      else if M.hookmask &&& 251 = 0 then { M with hook := none, hookmask := 0 }
      else { M with hook := some .line_hook, hookmask := M.hookmask &&& 251 } := by
  have hon := byte_mask_line_on M.hookmask hm
  have hoff := byte_mask_line_off M.hookmask hm
  unfold enable_line_hook lua_sethook lua_gethookmask
  by_cases he : enable ≠ 0
  · rw [if_pos he, if_pos he]
    simp only [reduceCtorEq, false_or, hon.2, if_false, hon.1]
  · rw [if_neg he, if_neg he]
    simp only [reduceCtorEq, false_or]
    by_cases hz : M.hookmask &&& 251 = 0
    · rw [if_pos (hoff.2.2 hz), if_pos hz]
    · have hz2 : ¬ M.hookmask &&& (4294967295 - LUA_MASKLINE) = 0 := fun h => hz (hoff.2.1 h)
      rw [if_neg hz2, if_neg hz, hoff.1]

/-- C14: for every hook mask `m` (a byte, as the VM keeps it) and every flag,
`enable_line_hook` leaves a mask that agrees with `m` in every bit but bit 2,
the per-line bit, which is set when the flag is not zero and clear when it is;
nothing of the machine but hook and mask changes; and a second call with the
same flag changes nothing more. -/
theorem enable_line_hook_changes_only_line_bit (M : Machine) (enable : Int)
    (hm : M.hookmask < 256) :
    (∀ i, Nat.testBit (enable_line_hook M enable).hookmask i
      = if i = 2 then decide (enable ≠ 0) else Nat.testBit M.hookmask i) ∧
    enable_line_hook (enable_line_hook M enable) enable = enable_line_hook M enable ∧
    { enable_line_hook M enable with hook := M.hook, hookmask := M.hookmask } = M := by
  have hc := byte_mask_closure M.hookmask hm
  have h4 : (4 : Nat) = 2 ^ 2 := by rfl
  have heq := enable_line_hook_eq M enable hm
  by_cases he : enable ≠ 0
  · rw [if_pos he] at heq
    refine ⟨?_, ?_, ?_⟩
    · intro i
      rw [heq]
      have he1 : decide (enable ≠ 0) = true := by simpa using he
      rw [he1]
      simp only [Nat.testBit_or, h4, Nat.testBit_two_pow]
      by_cases hi : i = 2
      · subst hi; simp
      · have hi2 : ¬ 2 = i := fun h => hi h.symm
        simp [hi, hi2]
    · rw [heq, enable_line_hook_eq _ enable hc.1, if_pos he]
      simp only [hc.2.1]
    · rw [heq]
  · rw [if_neg he] at heq
    have he0 : decide (enable ≠ 0) = false := by simpa using he
    by_cases hz : M.hookmask &&& 251 = 0
    · rw [if_pos hz] at heq
      refine ⟨?_, ?_, ?_⟩
      · intro i
        rw [heq, he0]
        simp only [Nat.zero_testBit]
        by_cases hi : i = 2
        · simp [hi]
        · simp only [hi, if_false]
          have hb : (M.hookmask &&& 251).testBit i = false := by rw [hz]; simp
          rw [Nat.testBit_and] at hb
          by_cases h8 : i < 8
          · rw [testBit_251 i hi h8] at hb
            simpa using hb.symm
          · exact (testBit_byte_high _ i hm (by omega)).symm
      · rw [heq, enable_line_hook_eq _ enable (by simp), if_neg he]
        simp
      · rw [heq]
    · rw [if_neg hz] at heq
      refine ⟨?_, ?_, ?_⟩
      · intro i
        rw [heq, he0]
        simp only [Nat.testBit_and]
        by_cases hi : i = 2
        · subst hi
          have : Nat.testBit 251 2 = false := by decide
          simp [this]
        · simp only [hi, if_false]
          by_cases h8 : i < 8
          · simp [testBit_251 i hi h8]
          · simp [testBit_byte_high _ i hm (by omega)]
      · rw [heq, enable_line_hook_eq _ enable hc.2.2.1, if_neg he]
        simp only [hc.2.2.2, hz, if_false]
      · rw [heq]

/-- C14 at a concrete machine: mask 11 (call, return, count) becomes 15 with the
flag on, twice as once, and mask 15 becomes 11 with the flag off. -/
theorem enable_line_hook_changes_only_line_bit_witness :
    ({ Machine.init with hookmask := 11 } : Machine).hookmask < 256 ∧
    (enable_line_hook { Machine.init with hookmask := 11 } 1).hookmask = 15 ∧
    enable_line_hook (enable_line_hook { Machine.init with hookmask := 11 } 1) 1
      = enable_line_hook { Machine.init with hookmask := 11 } 1 ∧
    (enable_line_hook { Machine.init with hookmask := 15 } 0).hookmask = 11 := by
  refine ⟨by decide, by decide, ?_, by decide⟩
  exact (enable_line_hook_changes_only_line_bit _ 1 (by decide)).2.1

/-- C20 fails on the code: the 3 bytes `x`, backslash, `t` and the 2 bytes
`x`, tab are different strings, and `print_string_var` emits the same text
for both (the backslash inside the run is not doubled). -/
theorem print_string_var_ambiguous :
    (print_string_var { Machine.init with stack := [.string ['x', '\\', 't']] } (-1) (-1)).out
      = (print_string_var { Machine.init with stack := [.string ['x', '\t']] } (-1) (-1)).out ∧
    (['x', '\\', 't'] : List Char) ≠ ['x', '\t'] ∧
    print_string_text ['x', '\\', 't'] = ['"', 'x', '\\', 't', '"'] := by
  decide

/-! ## Lemmas: rendering ends on a store without cycles -/

theorem table_pairs_length_le (heap : List (List (LuaValue × LuaValue))) (id : Nat) :
    (table_pairs heap id).length ≤ max_pairs heap := by
  unfold table_pairs max_pairs
  induction heap generalizing id with
  | nil => simp
  | cons t heap ih =>
    cases id with
    | zero => simp
    | succ id =>
      have h := ih id
      simp only [List.getD_cons_succ, List.map_cons, List.foldr_cons]
      exact le_trans h (le_max_right _ _)

theorem render_pairs_isSome (rk rv : LuaValue → Option Text) (d : Int) :
    ∀ (ps : List (LuaValue × LuaValue)),
      (∀ p ∈ ps, (rk p.1).isSome ∧ (rv p.2).isSome) → (render_pairs rk rv d ps).isSome := by
  intro ps
  induction ps with
  | nil => intro _; simp [render_pairs]
  | cons p ps ih =>
    intro h
    obtain ⟨k, w⟩ := p
    have hp := h (k, w) (List.mem_cons_self _ _)
    have hrest := ih (fun q hq => h q (List.mem_cons_of_mem _ hq))
    obtain ⟨tk, htk⟩ := Option.isSome_iff_exists.1 hp.1
    obtain ⟨tv, htv⟩ := Option.isSome_iff_exists.1 hp.2
    obtain ⟨tr, htr⟩ := Option.isSome_iff_exists.1 hrest
    simp only at htk htv
    simp [render_pairs, htk, htv, htr]

theorem render_isSome_of_rank (pf : Printf) (heap : List (List (LuaValue × LuaValue)))
    (rank : Nat → Nat) (hac : Acyclic heap rank) :
    ∀ (n : Nat) (v : LuaValue) (d : Int), value_rank rank v ≤ n →
      (render pf heap (n + max_pairs heap + 1) v d).isSome := by
  intro n
  induction n with
  | zero =>
    intro v d hv
    cases v with
    | table id => simp [value_rank] at hv
    | cfunction p => by_cases hp : p = 0 <;> simp [render, hp]
    | _ => simp [render]
  | succ n ih =>
    intro v d hv
    cases v with
    | table id =>
      have hr : rank id ≤ n := by simp only [value_rank] at hv; omega
      have hunf : render pf heap (n + 1 + max_pairs heap + 1) (.table id) d =
          if (table_pairs heap id).length ≤ n + 1 + max_pairs heap then
            (render_pairs (fun k => render pf heap (n + 1 + max_pairs heap) k (-1))
              (fun w => if d > 5 then some ['{', '.', '.', '.', '}']
                        else render pf heap (n + 1 + max_pairs heap) w (d + 1)) d
              (table_pairs heap id)).map
              (fun body => ['{'] ++ (if (table_pairs heap id).isEmpty then [' ', '}']
                                     else ['\n'] ++ body ++ tabs (d - 1) ++ ['}']))
          else none := rfl
      have hlen : (table_pairs heap id).length ≤ n + 1 + max_pairs heap :=
        le_trans (table_pairs_length_le heap id) (by omega)
      have hfuel : n + 1 + max_pairs heap = n + max_pairs heap + 1 := by omega
      rw [hunf, if_pos hlen, Option.isSome_map']
      apply render_pairs_isSome
      intro p hp
      have hpr := hac id p hp
      constructor
      · simp only [hfuel]
        exact ih p.1 (-1) (le_trans hpr.1 hr)
      · by_cases hd : d > 5
        · simp [hd]
        · simp only [hd, if_false, hfuel]
          exact ih p.2 (d + 1) (le_trans hpr.2 hr)
    | cfunction p => by_cases hp : p = 0 <;> simp [render, hp]
    | _ => simp [render]

theorem render_mono_le (pf : Printf) (heap : List (List (LuaValue × LuaValue))) (v : LuaValue)
    (d : Int) (t : Text) (fuel : Nat) (h : render pf heap fuel v d = some t) :
    ∀ (fuel2 : Nat), fuel ≤ fuel2 → render pf heap fuel2 v d = some t := by
  intro fuel2 hle
  induction fuel2 with
  | zero =>
    have : fuel = 0 := by omega
    subst this
    exact h
  | succ n ih =>
    by_cases hn : fuel ≤ n
    · exact render_mono pf heap n v d t (ih hn)
    · have : fuel = n + 1 := by omega
      subst this
      exact h

theorem print_var_bad_index (pf : Printf) (fuel : Nat) (M : Machine) (si depth : Int)
    (h : index2adr M si = none) : print_var pf (fuel + 1) M si depth = some M := by
  simp [print_var, lua_type, h, LUA_TNONE, LUA_TNIL, LUA_TNUMBER, LUA_TBOOLEAN, LUA_TFUNCTION,
    LUA_TUSERDATA, LUA_TSTRING, LUA_TTABLE]

theorem print_var_appends (pf : Printf) (fuel : Nat) (M : Machine) (si depth : Int)
    (hwf : HeapWF M.heap) (M2 : Machine) (h : print_var pf fuel M si depth = some M2) :
    ∃ t, M2 = ldb_output M t := by
  cases hidx : index2adr M si with
  | none =>
    cases fuel with
    | zero => simp [print_var] at h
    | succ fuel =>
      rw [print_var_bad_index pf fuel M si depth hidx] at h
      exact ⟨[], by simp only [Option.some.injEq] at h; simp [← h, ldb_output]⟩
  | some v =>
    rw [print_var_eq_render pf M.heap hwf fuel M si v depth rfl hidx] at h
    cases hr : render pf M.heap fuel v depth with
    | none => simp [hr] at h
    | some t =>
      rw [hr] at h
      simp only [Option.map_some', Option.some.injEq] at h
      exact ⟨t, h.symm⟩

theorem sample_nested_acyclic : Acyclic sample_nested_machine.heap (fun id => 1 - id) := by
  intro id p hp
  match id with
  | 0 =>
    have : p = (.string ['a'], .table 1) := by
      simpa [sample_nested_machine, Machine.init, table_pairs] using hp
    subst this
    exact ⟨by decide, by decide⟩
  | 1 =>
    have : p = (.string ['b'], .boolean true) := by
      simpa [sample_nested_machine, Machine.init, table_pairs] using hp
    subst this
    exact ⟨by decide, by decide⟩
  | n + 2 =>
    simp [sample_nested_machine, Machine.init, table_pairs] at hp

/-- Where `print_var` returns, the stack is as before: on a machine whose
tables are well formed, for every index `si` (positive, negative, or naming
no value) and every depth, whenever
`print_var(state, si, depth)` returns, the machine is the one before the call
with text appended to the sink: the stack has the same height and elements
and the table store is untouched.  And the call does return when the value
at `si` lies in a store without reference cycles (tables nested to any depth)
and the fuel exceeds the nesting rank of the value plus the largest table size. -/
theorem print_var_restores_stack (pf : Printf) (fuel : Nat) (M : Machine) (si depth : Int)
    (hwf : HeapWF M.heap) :
    (∀ M2, print_var pf fuel M si depth = some M2 →
      M2.stack = M.stack ∧ M2.heap = M.heap ∧ ∃ t, M2 = ldb_output M t) ∧
    (∀ (v : LuaValue) (rank : Nat → Nat), index2adr M si = some v → Acyclic M.heap rank →
      value_rank rank v + max_pairs M.heap + 1 ≤ fuel →
      ∃ t, print_var pf fuel M si depth = some (ldb_output M t)) := by
  constructor
  · intro M2 h
    obtain ⟨t, ht⟩ := print_var_appends pf fuel M si depth hwf M2 h
    subst ht
    exact ⟨rfl, rfl, t, rfl⟩
  · intro v rank hidx hac hfuel
    have hs := render_isSome_of_rank pf M.heap rank hac (value_rank rank v) v depth (le_refl _)
    obtain ⟨t, ht⟩ := Option.isSome_iff_exists.1 hs
    have ht2 := render_mono_le pf M.heap v depth t _ ht fuel hfuel
    refine ⟨t, ?_⟩
    rw [print_var_eq_render pf M.heap hwf fuel M si v depth rfl hidx, ht2]
    rfl

/-- The stack after `print_var` at a concrete machine: the nested table
`{ a = { b = true } }` at the positive index 1 (and the negative index -2),
one more value above it. -/
theorem print_var_restores_stack_witness :
    HeapWF sample_nested_machine.heap ∧
    (print_var sample_printf 4 sample_nested_machine 1 (-1)).map (fun M => (M.stack, M.heap, M.out))
      = some (sample_nested_machine.stack, sample_nested_machine.heap,
          "\x7b\n[\"a\"] = \x7b\n[\"b\"] = true,\n\x7d,\n\x7d".toList) ∧
    (∃ t, print_var sample_printf 4 sample_nested_machine (-2) (-1)
      = some (ldb_output sample_nested_machine t)) :=
  ⟨by decide, by decide,
    (print_var_restores_stack sample_printf 4 sample_nested_machine (-2) (-1) (by decide)).2
      (.table 0) (fun id => 1 - id) (by decide) sample_nested_acyclic (by decide)⟩

/-! ## Lemmas: the layout of a table -/

theorem print_handler_eq (pf : Printf) (fuel : Nat) (M : Machine) (ar : lua_Debug)
    (input : input_t) (hwf : HeapWF M.heap) (hnum : ¬ input.num < 2)
    (hfuel : (frame_locals M ar).length < fuel) :
    print_handler pf fuel M ar input =
      match (frame_locals M ar).find? (fun l => strcmp_eq (input_token input 1) l.1) with
      | some l =>
        (print_var_text pf fuel M.heap l.2 (-1)).map (fun t =>
          (0, ldb_output M ("local ".toList ++ input_token input 1 ++ " =".toList ++ t ++ ['\n'])))
      | none =>
        if global_value M (input_token input 1) = LuaValue.nil then
          some (0, ldb_output M ("not found var ".toList ++ input_token input 1 ++ ['\n']))
        else
          (print_var_text pf fuel M.heap (global_value M (input_token input 1)) (-1)).map (fun t =>
            (0, ldb_output M ("global ".toList ++ input_token input 1 ++ " =".toList ++ t ++ ['\n']))) := by
  have hloop := search_local_loop_spec ar (input_token input 1) M (frame_locals M ar) [] fuel
    (by simp) hfuel
  simp only [List.length_nil, Nat.cast_zero, zero_add] at hloop
  simp only [print_handler, hnum, if_false, search_local_var, hloop]
  cases hfind : (frame_locals M ar).find? (fun l => strcmp_eq (input_token input 1) l.1) with
  | some l =>
    have hr : ((List.findIdx (fun l => strcmp_eq (input_token input 1) l.1) (frame_locals M ar) + 1
        : Nat) : Int) ≠ 0 := by omega
    simp only [hr, ne_eq, not_false_eq_true, if_true]
    exact print_var_pushed pf fuel M hwf l.2 _
  | none =>
    simp only [ne_eq, not_true_eq_false, if_false, search_global_var]
    have hty := lua_type_top_nil_iff (lua_getglobal M (input_token input 1))
      (global_value M (input_token input 1)) M.stack (by simp [lua_getglobal, global_value])
    by_cases hg : global_value M (input_token input 1) = LuaValue.nil
    · have ht : lua_type (lua_getglobal M (input_token input 1)) (-1) = LUA_TNIL := hty.2 hg
      have hpop : lua_pop (lua_getglobal M (input_token input 1)) 1 = M := by
        simp [lua_getglobal, lua_pop, lua_settop]
      simp [ht, hg, hpop]
    · have ht : ¬ lua_type (lua_getglobal M (input_token input 1)) (-1) = LUA_TNIL :=
        fun h => hg (hty.1 h)
      simp only [ht, hg, if_false, ne_eq, one_ne_zero, not_false_eq_true, if_true]
      exact print_var_pushed pf fuel M hwf (global_value M (input_token input 1)) _

theorem print_handler_appends (pf : Printf) (fuel : Nat) (M : Machine) (ar : lua_Debug)
    (input : input_t) (hwf : HeapWF M.heap) (hfuel : (frame_locals M ar).length < fuel)
    (ret : Int) (M2 : Machine) (h : print_handler pf fuel M ar input = some (ret, M2)) :
    ∃ t, M2 = ldb_output M t := by
  by_cases hnum : input.num < 2
  · simp only [print_handler, hnum, if_true, Option.some.injEq, Prod.mk.injEq] at h
    exact ⟨_, h.2.symm⟩
  · rw [print_handler_eq pf fuel M ar input hwf hnum hfuel] at h
    split at h
    · obtain ⟨t, _, ht⟩ := Option.map_eq_some'.1 h
      simp only [Prod.mk.injEq] at ht
      exact ⟨_, ht.2.symm⟩
    · split at h
      · simp only [Option.some.injEq, Prod.mk.injEq] at h
        exact ⟨_, h.2.symm⟩
      · obtain ⟨t, _, ht⟩ := Option.map_eq_some'.1 h
        simp only [Prod.mk.injEq] at ht
        exact ⟨_, ht.2.symm⟩

/-- C19: `search_local_var` returns, for the first local of the frame whose
name matches, its index (not zero) with exactly that local's value pushed on
the stack as it was before the call - the values of the locals scanned before
it are popped - and returns 0 with the stack as before when no local matches;
and whenever `print_handler` returns (usage report, local, global or not
found), the stack is the one before the call. -/
theorem search_local_var_stack_effect (pf : Printf) (fuel : Nat) (M : Machine) (ar : lua_Debug)
    (var : List Char) (input : input_t) (hwf : HeapWF M.heap)
    (hfuel : (frame_locals M ar).length < fuel) :
    search_local_var fuel M ar var =
      (match (frame_locals M ar).find? (fun l => strcmp_eq var l.1) with
       | some l => some ((((frame_locals M ar).findIdx (fun l => strcmp_eq var l.1) + 1 : Nat) : Int),
           { M with stack := l.2 :: M.stack })
       | none => some (0, M)) ∧
    (∀ ret M2, print_handler pf fuel M ar input = some (ret, M2) →
      M2.stack = M.stack ∧ M2.stack.length = M.stack.length) := by
  constructor
  · have hloop := search_local_loop_spec ar var M (frame_locals M ar) [] fuel (by simp) hfuel
    simp only [List.length_nil, Nat.cast_zero, zero_add] at hloop
    simp only [search_local_var, hloop, zero_add]
  · intro ret M2 h
    obtain ⟨t, ht⟩ := print_handler_appends pf fuel M ar input hwf hfuel ret M2 h
    subst ht
    exact ⟨rfl, rfl⟩

/-- C19 at a concrete frame: the locals `y`, `x`, `x` with one value already on
the stack; looking for `x` scans and pops `y` and leaves the value of the
first `x` on top; looking for `z` leaves the stack as it was; `p x` returns
with the stack as it was. -/
theorem search_local_var_stack_effect_witness :
    HeapWF sample_frame_machine.heap ∧
    (frame_locals sample_frame_machine sample_ar).length < 5 ∧
    (search_local_var 5 { sample_frame_machine with stack := [.number 1] } sample_ar ['x']).map
        (fun r => (r.1, r.2.stack)) = some (2, [.boolean true, .number 1]) ∧
    (search_local_var 5 { sample_frame_machine with stack := [.number 1] } sample_ar ['z']).map
        (fun r => (r.1, r.2.stack)) = some (0, [.number 1]) ∧
    (print_handler sample_printf 5 sample_frame_machine sample_ar sample_input_p_x).map
        (fun r => r.2.stack) = some sample_frame_machine.stack := by
  refine ⟨by decide, by decide, ?_, ?_, by decide⟩
  · rw [(search_local_var_stack_effect sample_printf 5 _ sample_ar ['x'] sample_input_p_x
      (by decide) (by decide)).1]
    decide
  · rw [(search_local_var_stack_effect sample_printf 5 _ sample_ar ['z'] sample_input_p_x
      (by decide) (by decide)).1]
    decide

/-! ## Lemmas: the tokeniser -/

theorem tokens_go_length (cur : List Char) (rest : List Char) :
    (tokens_go cur rest).length
      = completed_tokens (decide (cur ≠ [])) rest
        + (if token_pending (decide (cur ≠ [])) rest then 1 else 0) := by
  induction rest generalizing cur with
  | nil =>
    by_cases h : cur = [] <;> simp [tokens_go, completed_tokens, token_pending, h]
  | cons c rest ih =>
    by_cases hc : isspace c = true
    · by_cases h : cur = []
      · have := ih []
        simp only [ne_eq, not_true_eq_false, decide_False] at this
        simp [tokens_go, completed_tokens, token_pending, hc, h, this]
      · have := ih []
        simp only [ne_eq, not_true_eq_false, decide_False] at this
        simp [tokens_go, completed_tokens, token_pending, hc, h, this]
        omega
    · have := ih (cur ++ [c])
      simp only [ne_eq, List.append_eq_nil, List.cons_ne_self, and_false, not_false_eq_true,
        decide_True] at this
      simp [tokens_go, completed_tokens, token_pending, hc, this]

theorem token_pending_getLast (rest : List Char) :
    ∀ (b : Bool), token_pending b rest =
      match rest.getLast? with
      | none => b
      | some c => !isspace c := by
  induction rest with
  | nil => intro b; simp [token_pending]
  | cons c rest ih =>
    intro b
    cases rest with
    | nil => by_cases hc : isspace c = true <;> simp [token_pending, hc]
    | cons c2 rest =>
      have h1 := ih false
      have h2 := ih true
      simp only [List.getLast?_cons_cons] at h1 h2 ⊢
      by_cases hc : isspace c = true
      · simp only [token_pending, hc, if_true] at h1 ⊢
        exact h1
      · simp only [token_pending, hc] at h2 ⊢
        exact h2

theorem split_input_loop_count (buff : List Char) :
    ∀ (rest : List Char) (p : Nat) (save : Option Nat) (i : Nat) (mem : List Char),
      '\n' ∉ rest → i ≤ 6 →
      if i + completed_tokens save.isSome rest ≤ 6 then
        ∃ save2 mem2, split_input_loop buff rest p save i mem
            = .fell_out save2 (i + completed_tokens save.isSome rest) mem2 ∧
          save2.isSome = token_pending save.isSome rest
      else ∃ mem2, split_input_loop buff rest p save i mem = .too_many mem2 := by
  intro rest
  induction rest with
  | nil =>
    intro p save i mem _ hi
    simp only [completed_tokens, add_zero, hi, if_true, split_input_loop, token_pending]
    exact ⟨save, mem, rfl, rfl⟩
  | cons c rest ih =>
    intro p save i mem hnl hi
    have hc : c ≠ '\n' := fun h => hnl (by simp [h])
    have hnl2 : '\n' ∉ rest := fun h => hnl (List.mem_cons_of_mem _ h)
    by_cases hs : isspace c = true
    · cases save with
      | none =>
        have := ih (p + 1) none i mem hnl2 hi
        simp only [Option.isSome_none] at this
        simp only [split_input_loop, hc, if_false, hs, if_true, completed_tokens, token_pending,
          Option.isSome_none, Bool.false_eq_true, zero_add]
        exact this
      | some s =>
        simp only [split_input_loop, hc, if_false, hs, if_true, completed_tokens, token_pending,
          Option.isSome_some, LDB_MAX_PARAM]
        by_cases h5 : i > 5
        · have hgt : ¬ (i + (1 + completed_tokens false rest) ≤ 6) := by omega
          simp only [h5, if_true, hgt, if_false]
          exact ⟨mem, rfl⟩
        · have := ih (p + 1) none (i + 1) (strncpy mem (5 * i) (buff.drop s) (p - s)) hnl2
            (by omega)
          simp only [Option.isSome_none] at this
          have hadd : i + (1 + completed_tokens false rest)
              = i + 1 + completed_tokens false rest := by omega
          simp only [h5, if_false, hadd]
          exact this
    · have := ih (p + 1) (if save = none then some p else save) i mem hnl2 hi
      have hsome : (if save = none then some p else save).isSome = true := by
        cases save <;> simp
      rw [hsome] at this
      simp only [split_input_loop, hc, if_false, hs, completed_tokens, token_pending,
        Bool.false_eq_true]
      exact this

/-- C12 fails as stated: the line `a b c d e f` holds 6 tokens, more than
`LDB_MAX_PARAM = 5`, and `split_input` returns 0 with `num = 6`. -/
theorem split_input_accepts_six_tokens :
    (split_input Machine.init "a b c d e f".toList blank_input).map (fun r => (r.1, r.2.2.num))
      = some (0, 6) ∧
    (tokens "a b c d e f".toList).length = 6 := by
  decide

/-- C12 as amended: for every line (no newline inside) that is not empty and
does not end in white space, `split_input` returns -1 exactly when the line
holds more than 6 tokens - the command name and `LDB_MAX_PARAM = 5` parameters -
and otherwise returns 0 with the machine untouched and `num` the number of
tokens. -/
theorem split_input_malformed_iff (M : Machine) (line : List Char) (input : input_t)
    (hnl : '\n' ∉ line) (hne : line ≠ [])
    (hend : ∀ c, line.getLast? = some c → isspace c = false) :
    ∃ ret M1 input1, split_input M line input = some (ret, M1, input1) ∧
      (ret = -1 ↔ 6 < (tokens line).length) ∧
      (ret = 0 ↔ (tokens line).length ≤ 6) ∧
      (ret = 0 → M1 = M ∧ input1.num = (tokens line).length) := by
  have hpend : token_pending false line = true := by
    rw [token_pending_getLast]
    cases hl : line.getLast? with
    | none => exact absurd (List.getLast?_eq_none_iff.1 hl) hne
    | some c => simp [hend c hl]
  have hlen : (tokens line).length = completed_tokens false line + 1 := by
    have := tokens_go_length [] line
    simp only [ne_eq, not_true_eq_false, decide_False, hpend, if_true] at this
    exact this
  have hloop := split_input_loop_count line line 0 none 0 input.buffer hnl (by omega)
  simp only [Option.isSome_none, zero_add] at hloop
  by_cases hc : completed_tokens false line ≤ 6
  · rw [if_pos hc] at hloop
    obtain ⟨save2, mem2, hl, hs⟩ := hloop
    rw [hpend] at hs
    obtain ⟨s, rfl⟩ := Option.isSome_iff_exists.1 hs
    by_cases h5 : completed_tokens false line > LDB_MAX_PARAM
    · refine ⟨-1, _, _, by simp only [split_input, hl, h5, if_true]; rfl, ?_, ?_, ?_⟩
      · simp only [LDB_MAX_PARAM] at h5; simp only [true_iff]; omega
      · simp only [LDB_MAX_PARAM] at h5
        constructor
        · intro h; omega
        · intro h; omega
      · intro h; omega
    · refine ⟨0, M, _, by simp only [split_input, hl, h5, if_false]; rfl, ?_, ?_, ?_⟩
      · simp only [LDB_MAX_PARAM] at h5
        constructor
        · intro h; omega
        · intro h; omega
      · simp only [LDB_MAX_PARAM] at h5; simp only [true_iff]; omega
      · intro _
        refine ⟨rfl, ?_⟩
        simp only [hlen]
        push_cast
        rfl
  · rw [if_neg hc] at hloop
    obtain ⟨mem2, hl⟩ := hloop
    refine ⟨-1, _, _, by simp only [split_input, hl]; rfl, ?_, ?_, ?_⟩
    · simp only [true_iff]; omega
    · constructor
      · intro h; omega
      · intro h; omega
    · intro h; omega

/-- C12 as amended, at concrete lines: 6 tokens are accepted, 7 are refused. -/
theorem split_input_malformed_iff_witness :
    '\n' ∉ "a b c d e f g".toList ∧ "a b c d e f g".toList ≠ [] ∧
    (∀ c, "a b c d e f g".toList.getLast? = some c → isspace c = false) ∧
    (tokens "a b c d e f g".toList).length = 7 ∧
    (∃ ret M1 input1, split_input Machine.init "a b c d e f g".toList blank_input
        = some (ret, M1, input1) ∧ ret = -1) := by
  refine ⟨by decide, by decide, by decide, by decide, ?_⟩
  obtain ⟨ret, M1, input1, h, hm, _, _⟩ :=
    split_input_malformed_iff Machine.init "a b c d e f g".toList blank_input
      (by decide) (by decide) (by decide)
  exact ⟨ret, M1, input1, h, hm.2 (by decide)⟩

/-- C18 fails on the code.  For the line `h` followed by a blank (one token,
trailing white space) `save` is NULL when the loop ends and the final
`strcpy` copies from it: the call has no defined result.  And a token before
the last is stored by `strncpy` without a terminating NUL: for the line `p x`
read after the line `xyz`, `split_input` returns 0 with `num = 2`, but the C
string at `input->buffer[0]` is `pyz`, not the command name `p`. -/
theorem split_input_trailing_space_and_stale_bytes :
    split_input Machine.init ['h', ' '] blank_input = none ∧
    (tokens ['h', ' ']).length = 1 ∧
    (split_input Machine.init "p x".toList
        { buffer := strcpy blank_input.buffer 0 "xyz".toList, num := 1 }).map
        (fun r => (r.1, r.2.2.num, input_token r.2.2 0, input_token r.2.2 1))
      = some (0, 2, "pyz".toList, "x".toList) := by
  decide

/-! ## Lemmas: lines of one token -/

theorem cstr_append_nul (t rest : List Char) (h : ∀ x ∈ t, x ≠ NUL) :
    cstr (t ++ NUL :: rest) = t := by
  induction t with
  | nil => simp [cstr]
  | cons a t ih =>
    have ha : (fun c => decide (c ≠ NUL)) a = true := by
      simpa using h a (List.mem_cons_self _ _)
    have htail := ih (fun x hx => h x (List.mem_cons_of_mem _ hx))
    unfold cstr at htail ⊢
    have hstep := @List.takeWhile_cons_of_pos Char (fun c => decide (c ≠ NUL)) a
      (t ++ NUL :: rest) ha
    rw [List.cons_append, hstep, htail]

theorem cstr_of_no_nul (t : List Char) (h : ∀ x ∈ t, x ≠ NUL) : cstr t = t := by
  unfold cstr
  rw [List.takeWhile_eq_self_iff]
  intro x hx
  simpa using h x hx

theorem split_input_loop_token (buff : List Char) :
    ∀ (rest : List Char) (p s i : Nat) (mem : List Char),
      (∀ x ∈ rest, isspace x = false) →
      split_input_loop buff rest p (some s) i mem = .fell_out (some s) i mem := by
  intro rest
  induction rest with
  | nil => intro p s i mem _; simp [split_input_loop]
  | cons c rest ih =>
    intro p s i mem h
    have hc : isspace c = false := h c (List.mem_cons_self _ _)
    have hn : c ≠ '\n' := by
      intro hcn
      rw [hcn] at hc
      exact absurd hc (by decide)
    simp only [split_input_loop, hn, if_false, hc, Bool.false_eq_true, reduceCtorEq]
    exact ih (p + 1) s i mem (fun x hx => h x (List.mem_cons_of_mem _ hx))

theorem split_input_single (M : Machine) (t : List Char) (input : input_t) (ht : t ≠ [])
    (hs : ∀ x ∈ t, isspace x = false) :
    split_input M t input = some (0, M, { buffer := strcpy input.buffer 0 t, num := 1 }) := by
  cases t with
  | nil => exact absurd rfl ht
  | cons c rest =>
    have hc : isspace c = false := hs c (List.mem_cons_self _ _)
    have hn : c ≠ '\n' := by
      intro hcn
      rw [hcn] at hc
      exact absurd hc (by decide)
    have hl := split_input_loop_token (c :: rest) rest 1 0 0 input.buffer
      (fun x hx => hs x (List.mem_cons_of_mem _ hx))
    simp [split_input, split_input_loop, hn, hc, hl, LDB_MAX_PARAM]

theorem input_token_strcpy (mem t : List Char) (n : Int) (h : ∀ x ∈ t, x ≠ NUL) :
    input_token { buffer := strcpy mem 0 t, num := n } 0 = t := by
  simp only [input_token, strcpy, mem_write, LDB_MAX_PARAM, Nat.mul_zero, List.drop_zero,
    List.take_zero, List.nil_append, cstr_of_no_nul t h, List.append_assoc,
    List.singleton_append]
  exact cstr_append_nul t _ h

theorem get_input_line (t : List Char) (hl : t.length < 200) (h : ∀ x ∈ t, x ≠ NUL) :
    get_input (some (t ++ ['\n'])) = ((t.length : Int), t) := by
  have hlen : ((t ++ ['\n']).take LDB_MAX_INPUT).length = t.length + 1 := by
    simp [LDB_MAX_INPUT]; omega
  have htake : (t ++ ['\n']).take (t.length + 1 - 1) = t := by simp
  have hpos : t.length + 1 > 0 := by omega
  simp only [get_input, hlen, hpos, if_true, htake, cstr_of_no_nul t h]
  simp

theorem line_hook_pass_single (pf : Printf) (fuel : Nat) (ar : lua_Debug) (M : Machine)
    (input : input_t) (t : List Char) (ht : t ≠ [])
    (hs : ∀ x ∈ t, isspace x = false ∧ x ≠ NUL) (hl : t.length < 200) :
    line_hook_pass pf fuel ar M input (some (t ++ ['\n']))
      = dispatch pf fuel ar M { buffer := strcpy input.buffer 0 t, num := 1 } t := by
  have hpos : (t.length : Int) > 0 := by
    have := List.length_pos.2 ht
    omega
  simp only [line_hook_pass, get_input_line t hl (fun x hx => (hs x hx).2), hpos, if_true,
    split_input_single M t input ht (fun x hx => (hs x hx).1), lt_self_iff_false, if_false]

theorem command_names_cstr : ∀ e ∈ commands, cstr e.name = e.name := by
  decide

theorem dispatch_unknown (pf : Printf) (fuel : Nat) (ar : lua_Debug) (M : Machine)
    (input : input_t) (buff : List Char)
    (hunk : ∀ e ∈ commands, e.name ≠ input_token input 0) :
    dispatch pf fuel ar M input buff
      = .prompting (set_prompt (ldb_output M
          ("bad command: ".toList ++ buff ++ ", ldb_output h for help\n".toList))) input := by
  have hfind : commands.find? (fun c => strcmp_eq (input_token input 0) c.name) = none := by
    rw [List.find?_eq_none]
    intro e he hm
    simp only [strcmp_eq, cstr_input_token, command_names_cstr e he, decide_eq_true_eq] at hm
    exact hunk e he hm.symm
  simp only [dispatch, hfind]

/-- A line of 7 tokens does not reach the dispatcher: the first token of the
line `xyz a b c d e f` is no command name, and the pass writes the report of a malformed line (`param ...
more than 5`) and the prompt, not a `bad command` report. -/
theorem unknown_first_token_of_seven_gets_no_bad_command :
    (line_hook_pass sample_printf 5 sample_ar Machine.init blank_input
        (some "xyz a b c d e f\n".toList)).out
      = "param xyz a b c d e f more than 5(ldb) ".toList ∧
    (tokens "xyz a b c d e f".toList).head? = some "xyz".toList := by
  decide

/-- Lines of a single token: for every line that consists of one token `t` (not empty,
no white space, no NUL, short enough for one read) equal to none of the
registered command names, the pass calls no handler: it leaves the machine
with only the report `bad command: t, ...` and the prompt appended, and stays
in Prompting; and a following line that consists of one token `c` is then
dispatched on exactly `c` as token 0, whatever the first line left in the
input record. -/
theorem unknown_command_reprompts (pf : Printf) (fuel : Nat) (ar : lua_Debug) (M : Machine)
    (input : input_t) (t c : List Char) (rest : List (Option (List Char)))
    (ht : t ≠ []) (hts : ∀ x ∈ t, isspace x = false ∧ x ≠ NUL) (htl : t.length < 200)
    (hunk : ∀ e ∈ commands, e.name ≠ t)
    (hc : c ≠ []) (hcs : ∀ x ∈ c, isspace x = false ∧ x ≠ NUL) (hcl : c.length < 200) :
    line_hook_pass pf fuel ar M input (some (t ++ ['\n']))
      = .prompting (set_prompt (ldb_output M
          ("bad command: ".toList ++ t ++ ", ldb_output h for help\n".toList)))
          { buffer := strcpy input.buffer 0 t, num := 1 } ∧
    input_token { buffer := strcpy (strcpy input.buffer 0 t) 0 c, num := 1 } 0 = c ∧
    line_hook_loop pf fuel ar (some (t ++ ['\n']) :: some (c ++ ['\n']) :: rest) M input
      = (match dispatch pf fuel ar
            (set_prompt (ldb_output M
              ("bad command: ".toList ++ t ++ ", ldb_output h for help\n".toList)))
            { buffer := strcpy (strcpy input.buffer 0 t) 0 c, num := 1 } c with
         | .prompting M2 input2 => line_hook_loop pf fuel ar rest M2 input2
         | other => other) := by
  have htok : input_token { buffer := strcpy input.buffer 0 t, num := 1 } 0 = t :=
    input_token_strcpy input.buffer t 1 (fun x hx => (hts x hx).2)
  have h1 : line_hook_pass pf fuel ar M input (some (t ++ ['\n']))
      = .prompting (set_prompt (ldb_output M
          ("bad command: ".toList ++ t ++ ", ldb_output h for help\n".toList)))
          { buffer := strcpy input.buffer 0 t, num := 1 } := by
    rw [line_hook_pass_single pf fuel ar M input t ht hts htl]
    exact dispatch_unknown pf fuel ar M _ t (by rw [htok]; exact hunk)
  refine ⟨h1, input_token_strcpy _ c 1 (fun x hx => (hcs x hx).2), ?_⟩
  simp only [line_hook_loop, h1, line_hook_pass_single pf fuel ar _ _ c hc hcs hcl]

/-- The concrete lines `xyz` and then `h`: the first gets the `bad command`
report, the second prints the help. -/
theorem unknown_command_reprompts_witness :
    ("xyz".toList ≠ []) ∧ (∀ x ∈ "xyz".toList, isspace x = false ∧ x ≠ NUL) ∧
    "xyz".toList.length < 200 ∧ (∀ e ∈ commands, e.name ≠ "xyz".toList) ∧
    (line_hook_pass sample_printf 5 sample_ar Machine.init blank_input (some "xyz\n".toList)).out
      = "bad command: xyz, ldb_output h for help\n(ldb) ".toList ∧
    (line_hook_loop sample_printf 5 sample_ar [some "xyz\n".toList, some "h\n".toList]
        Machine.init blank_input).out
      = ("bad command: xyz, ldb_output h for help\n(ldb) "
          ++ "Lua debugger written by Lichuang(2013)\ncmd:\n\th(help): print help info\n"
          ++ "\tq(quit): quit ldb\n\tp <varname>: print var value\n\tbt: print backtrace info\n"
          ++ "\tl(list): list file source\n(ldb) ").toList := by
  refine ⟨by decide, by decide, by decide, by decide, ?_, by decide⟩
  have h := (unknown_command_reprompts sample_printf 5 sample_ar Machine.init blank_input
    "xyz".toList "h".toList [] (by decide) (by decide) (by decide) (by decide) (by decide)
    (by decide) (by decide)).1
  have e : (some "xyz\n".toList : Option (List Char)) = some ("xyz".toList ++ ['\n']) := by
    decide
  rw [e, h]
  decide

/-! ## The depth ceiling by nesting level -/

theorem render_eq_render_by_level (pf : Printf) (heap : List (List (LuaValue × LuaValue))) :
    ∀ (fuel level : Nat) (v : LuaValue), level ≤ 7 →
      render pf heap fuel v ((level : Int) - 1) = render_by_level pf heap fuel level v := by
  intro fuel
  induction fuel with
  | zero => intro level v _; rfl
  | succ fuel ih =>
    intro level v hl
    cases v with
    | table id =>
      have hunf : render pf heap (fuel + 1) (.table id) ((level : Int) - 1) =
          if (table_pairs heap id).length ≤ fuel then
            (render_pairs (fun k => render pf heap fuel k (-1))
              (fun w => if (level : Int) - 1 > 5 then some ['{', '.', '.', '.', '}']
                        else render pf heap fuel w ((level : Int) - 1 + 1))
              ((level : Int) - 1) (table_pairs heap id)).map
              (fun body => ['{'] ++ (if (table_pairs heap id).isEmpty then [' ', '}']
                else ['\n'] ++ body ++ tabs ((level : Int) - 1 - 1) ++ ['}']))
          else none := rfl
      have hunf2 : render_by_level pf heap (fuel + 1) level (.table id) =
          if (table_pairs heap id).length ≤ fuel then
            (render_pairs (fun k => render_by_level pf heap fuel 0 k)
              (fun w => if level + 1 > 7 then some ['{', '.', '.', '.', '}']
                        else render_by_level pf heap fuel (level + 1) w)
              ((level : Int) - 1) (table_pairs heap id)).map
              (fun body => ['{'] ++ (if (table_pairs heap id).isEmpty then [' ', '}']
                else ['\n'] ++ body ++ tabs ((level : Int) - 2) ++ ['}']))
          else none := rfl
      have hk : (fun k => render pf heap fuel k (-1))
          = (fun k => render_by_level pf heap fuel 0 k) := by
        funext k
        have := ih 0 k (by omega)
        simpa using this
      have hv : (fun w => if (level : Int) - 1 > 5 then some ['{', '.', '.', '.', '}']
                        else render pf heap fuel w ((level : Int) - 1 + 1))
          = (fun w => if level + 1 > 7 then some ['{', '.', '.', '.', '}']
                        else render_by_level pf heap fuel (level + 1) w) := by
        funext w
        by_cases h : level + 1 > 7
        · have h2 : (level : Int) - 1 > 5 := by omega
          rw [if_pos h, if_pos h2]
        · have h2 : ¬ ((level : Int) - 1 > 5) := by omega
          rw [if_neg h, if_neg h2]
          have := ih (level + 1) w (by omega)
          have e : (level : Int) - 1 + 1 = ((level + 1 : Nat) : Int) - 1 := by
            push_cast; ring
          rw [e]
          exact this
      have ht : (level : Int) - 1 - 1 = (level : Int) - 2 := by ring
      rw [hunf, hunf2, hk, hv, ht]
    | _ => rfl

/-- C6 as amended: for every well-formed table store and every value, the
text the top-level render `print_var(state, -1, -1)` emits is the rendering
by nesting level `render_by_level` at level 0: every table that lies at most 7
levels (through values) below the printed value is expanded pair by pair,
whatever the number of its pairs, and every value that lies more than 7
levels below is replaced by the placeholder `{...}` and never rendered; keys
are rendered as top-level values.  The two sides also run out of fuel
together. -/
theorem print_var_placeholder_beyond_level_7 (pf : Printf) (fuel : Nat)
    (heap : List (List (LuaValue × LuaValue))) (v : LuaValue) (hwf : HeapWF heap) :
    print_var_text pf fuel heap v (-1) = render_by_level pf heap fuel 0 v := by
  rw [print_var_text_eq_render pf heap hwf fuel v (-1)]
  have := render_eq_render_by_level pf heap fuel 0 v (by omega)
  simpa using this

/-- C6 as amended, at a concrete table store: the 7 links `{ a = ... }` lead
to a table 7 levels down with the two pairs `a = { c = nil }` and `b = true`;
both values lie 8 levels down and both are replaced by the placeholder. -/
theorem print_var_placeholder_beyond_level_7_witness :
    HeapWF (chain_links 7 ++ [[(.string ['a'], .table 8), (.string ['b'], .boolean true)],
      [(.string ['c'], .nil)]]) ∧
    print_var_text sample_printf 12 (chain_links 7 ++ [[(.string ['a'], .table 8),
        (.string ['b'], .boolean true)], [(.string ['c'], .nil)]]) (.table 0) (-1)
      = some ("\x7b\n[\"a\"] = \x7b\n[\"a\"] = \x7b\n\t[\"a\"] = \x7b\n\t\t[\"a\"] = \x7b\n\t\t\t[\"a\"] = \x7b\n\t\t\t\t[\"a\"] = \x7b\n\t\t\t\t\t[\"a\"] = \x7b\n\t\t\t\t\t\t[\"a\"] = \x7b...\x7d,\n\t\t\t\t\t\t[\"b\"] = \x7b...\x7d,\n\t\t\t\t\t\x7d,\n\t\t\t\t\x7d,\n\t\t\t\x7d,\n\t\t\x7d,\n\t\x7d,\n\x7d,\n\x7d,\n\x7d").toList := by
  refine ⟨by decide, ?_⟩
  rw [print_var_placeholder_beyond_level_7 sample_printf 12 _ (.table 0) (by decide)]
  decide

/-! ## Key cycles and the return of the renderer -/

theorem render_mutual_key_none (pf : Printf) :
    ∀ (fuel : Nat) (d : Int),
      render pf [[(.table 1, .boolean true)], [(.table 0, .boolean true)]] fuel (.table 0) d = none ∧
      render pf [[(.table 1, .boolean true)], [(.table 0, .boolean true)]] fuel (.table 1) d = none := by
  intro fuel
  induction fuel with
  | zero => intro d; simp [render]
  | succ fuel ih =>
    intro d
    simp [render, table_pairs, render_pairs, (ih (-1)).1, (ih (-1)).2]

/-- C15 fails on the code: for the two tables `t`, `u` with `t[u] = true` and
`u[t] = true`, `t` at the positive stack index 1 (the negative index -2) below
a number, `print_var(state, si, depth)` never returns, at any depth - with any
amount of fuel the embedded call runs out of it, because each key is rendered
at depth -1 again.  So the call does not come back with the stack as it was. -/
theorem print_var_mutual_key_never_returns (pf : Printf) (fuel : Nat) (depth : Int) :
    index2adr mutual_key_machine 1 = some (.table 0) ∧
    index2adr mutual_key_machine (-2) = some (.table 0) ∧
    print_var pf fuel mutual_key_machine 1 depth = none ∧
    print_var pf fuel mutual_key_machine (-2) depth = none := by
  refine ⟨by decide, by decide, ?_, ?_⟩
  · rw [print_var_eq_render pf mutual_key_machine.heap (by decide) fuel mutual_key_machine 1
      (.table 0) depth rfl (by decide)]
    simp [mutual_key_machine, Machine.init, render_mutual_key_none]
  · rw [print_var_eq_render pf mutual_key_machine.heap (by decide) fuel mutual_key_machine (-2)
      (.table 0) depth rfl (by decide)]
    simp [mutual_key_machine, Machine.init, render_mutual_key_none]

/-! ## An unknown command and the line that follows it -/

/-- C11 fails on the code: after the unknown line `xyz` the valid line `p x`
is not dispatched to `print_handler` - token 0 is stored without its
terminator over the bytes of `xyz`, reads `pyz`, and the line gets a
`bad command` report (on a fresh input record the same line prints the local
`x`).  And after the unknown line `exit` the line `qu x`, whose first token
`qu` is no command name, is dispatched to `quit_handler`: token 0 reads
`quit`, the line bit of the hook mask is cleared and the loop ends, the
following `h` unread. -/
theorem unknown_command_spoils_following_line :
    (line_hook_loop sample_printf 5 sample_ar [some "xyz\n".toList, some "p x\n".toList]
        sample_frame_machine blank_input).out
      = ("bad command: xyz, ldb_output h for help\n(ldb) "
          ++ "bad command: p x, ldb_output h for help\n(ldb) ").toList ∧
    (line_hook_loop sample_printf 5 sample_ar [some "p x\n".toList]
        sample_frame_machine blank_input).out
      = "local x =true\n(ldb) ".toList ∧
    (tokens "qu x".toList).head? = some "qu".toList ∧
    (∀ e ∈ commands, e.name ≠ "qu".toList) ∧
    line_hook_loop sample_printf 5 sample_ar
        [some "exit\n".toList, some "qu x\n".toList, some "h\n".toList]
        sample_hooked_machine blank_input
      = .resumed (quit_handler (set_prompt (ldb_output sample_hooked_machine
          "bad command: exit, ldb_output h for help\n".toList)) sample_ar blank_input).2 := by
  decide

end Ldb
